import Mathlib

/-!
Bounding boxes of GeoJSON entities (`boundingbox.go`)

A shallow embedding of `boundingbox.go`: the override decoder
`decodeBoundingBox`, the validity check `checkBoundingBox`, and the three
`GetBoundingBox` methods on `Geometry`, `Feature` and `FeatureCollection`.

* `float64` is modelled by its IEEE 754 bit pattern (`F64`), with the Go
  comparison operators and `math.Min` / `math.Max` defined on the bits.
* A Go slice that may be `nil` is an `Option (List _)`; `none` is the `nil` slice.
* A run-time panic (index out of range) is the result `none` of a method.
-/

/-! ## float64 -/

/-- An IEEE 754 binary64 value, by its bit pattern: the sign bit and the
remaining 63 bits (11 exponent bits followed by 52 mantissa bits). -/
structure F64 where
  sign : Bool
  mag : Fin 9223372036854775808
deriving DecidableEq, Repr

namespace F64

/-- The 63 low bits of an infinity: exponent all ones, mantissa zero
(`0x7FF0000000000000`). -/
def infMag : Nat := 9218868437227405312

/-- The 63 low bits of `math.MaxFloat64` (`0x7FEFFFFFFFFFFFFF`). -/
def maxMag : Nat := 9218868437227405311

/-- The value with sign bit `s` and low bits `m` (taken modulo `2^63`). -/
def ofBits (s : Bool) (m : Nat) : F64 :=
  ⟨s, ⟨m % 9223372036854775808, Nat.mod_lt _ (by decide)⟩⟩

/-- Go `math.MaxFloat64`. -/
def MaxFloat64 : F64 := ofBits false maxMag

/-- Go unary minus: flips the sign bit. -/
def neg (x : F64) : F64 := ⟨!x.sign, x.mag⟩

/-- Go `math.NaN()`: the bit pattern `0x7FF8000000000001`. -/
def NaN : F64 := ofBits false 9221120237041090561

/-- Go `math.Inf(sign)`: positive infinity when `sign ≥ 0`, else negative. -/
def Inf (sign : Int) : F64 := ofBits (decide (sign < 0)) infMag

/-- Go `math.IsNaN`. -/
def IsNaN (x : F64) : Bool := decide (infMag < x.mag.val)

/-- Go `math.IsInf(x, sign)`. -/
def IsInf (x : F64) (sign : Int) : Bool :=
  decide (x.mag.val = infMag) &&
    ((decide (0 ≤ sign) && !x.sign) || (decide (sign ≤ 0) && x.sign))

/-- Go `math.Signbit`. -/
def Signbit (x : F64) : Bool := x.sign

/-- The numeric order of the values that are not NaN: IEEE 754 values are
ordered as their sign-magnitude integers; both zeros get 0. -/
def toOrd (x : F64) : Int := if x.sign then -(x.mag.val : Int) else (x.mag.val : Int)

/-- Go `x <= y` on float64: false when either operand is NaN. -/
def le (x y : F64) : Bool := !x.IsNaN && !y.IsNaN && decide (x.toOrd ≤ y.toOrd)

/-- Go `x < y` on float64: false when either operand is NaN. -/
def lt (x y : F64) : Bool := !x.IsNaN && !y.IsNaN && decide (x.toOrd < y.toOrd)

/-- Go `x == y` on float64: false when either operand is NaN, `-0 == +0`. -/
def eq (x y : F64) : Bool := !x.IsNaN && !y.IsNaN && decide (x.toOrd = y.toOrd)

/-- Positive zero. -/
def zero : F64 := ofBits false 0

/-- Go `math.Min` (standard library, `math/dim.go`):
`Min(x, -Inf) = Min(-Inf, x) = -Inf`, `Min(x, NaN) = Min(NaN, x) = NaN`,
`Min(-0, ±0) = Min(±0, -0) = -0`, otherwise the smaller operand. -/
def Min (x y : F64) : F64 :=
  if x.IsInf (-1) || y.IsInf (-1) then Inf (-1)
  else if x.IsNaN || y.IsNaN then NaN
  else if x.eq zero && x.eq y then (if x.Signbit then x else y)
  else if x.lt y then x
  else y

/-- Go `math.Max` (standard library, `math/dim.go`):
`Max(x, +Inf) = Max(+Inf, x) = +Inf`, `Max(x, NaN) = Max(NaN, x) = NaN`,
`Max(+0, ±0) = Max(±0, +0) = +0`, otherwise the larger operand. -/
def Max (x y : F64) : F64 :=
  if x.IsInf 1 || y.IsInf 1 then Inf 1
  else if x.IsNaN || y.IsNaN then NaN
  else if x.eq zero && x.eq y then (if x.Signbit then y else x)
  else if y.lt x then x
  else y

/-- The position of the top bit of `n`, by at most `fuel` halvings. -/
def topBit : Nat → Nat → Nat
  | 0, _ => 0
  | fuel + 1, n => if n < 2 then 0 else topBit fuel (n / 2) + 1

/-- The float64 whose value is the natural number `n` (exact for `n < 2^53`):
biased exponent `1023 + e` and mantissa the bits of `n` below its top bit `e`. -/
def ofNat (n : Nat) : F64 :=
  if n = 0 then zero
  else ofBits false ((1023 + topBit 64 n) * 4503599627370496
    + (n - 2 ^ topBit 64 n) * 2 ^ (52 - topBit 64 n))

instance (n : Nat) : OfNat F64 n := ⟨ofNat n⟩

/-- A finite value: neither NaN nor an infinity. -/
def IsFinite (x : F64) : Bool := decide (x.mag.val < infMag)

end F64

/-! ## Data model -/

/-- Modelled from the spec: the declaration of `Coordinate` is not in
`boundingbox.go`; the source reads its fields `X` and `Y`, a pair of 64-bit
floating-point numbers. -/
structure Coordinate where
  X : F64
  Y : F64
deriving DecidableEq, Repr

/-- Modelled from the spec: the declaration of `GeometryType` is not in
`boundingbox.go`; the seven constants are the ones the source switches on, and
`unknown` stands for any other tag value (no `case` of the switch matches). -/
inductive GeometryType where
  | GeometryPoint
  | GeometryMultiPoint
  | GeometryLineString
  | GeometryMultiLineString
  | GeometryPolygon
  | GeometryMultiPolygon
  | GeometryCollection
  | unknown
deriving DecidableEq, Repr

/-- Modelled from the spec: the declaration of `Geometry` is not in
`boundingbox.go`; the fields are the ones the source reads: the tag `Type`,
the optional override `BoundingBox` (a slice, `none` when nil), and one payload
field per variant, `Geometries` being the ordered children of a collection. -/
inductive Geometry where
  | mk (type : GeometryType) (BoundingBox : Option (List F64))
      (Point : Coordinate) (MultiPoint : List Coordinate) (LineString : List Coordinate)
      (MultiLineString : List (List Coordinate)) (Polygon : List (List Coordinate))
      (MultiPolygon : List (List (List Coordinate))) (Geometries : List Geometry)

/-- Modelled from the spec: the declaration of `Feature` is not in
`boundingbox.go`; a feature wraps exactly one geometry and carries an optional
override bounding box. -/
structure Feature where
  BoundingBox : Option (List F64)
  Geometry : Geometry

/-- Modelled from the spec: the declaration of `FeatureCollection` is not in
`boundingbox.go`; an ordered sequence of features and an optional override. -/
structure FeatureCollection where
  BoundingBox : Option (List F64)
  Features : List Feature

/-- A Go `[2]float64`: index 0 is `.1`, index 1 is `.2`. -/
abbrev Vec2 : Type := F64 × F64

/-- The triple `(min, max, ok)` returned by the `GetBoundingBox` methods. -/
abbrev Bounds : Type := Vec2 × Vec2 × Bool

/-! ## `decodeBoundingBox` -/

/-- A Go `interface{}` value as the decoder can receive it: the untyped nil,
a `float64`, a `[]float64` (possibly the nil slice), a `[]interface{}`, and
values of other dynamic types (string, int, bool, map). -/
inductive Value where
  | nil
  | float64 (x : F64)
  | float64Slice (xs : Option (List F64))
  | ifaceSlice (vs : List Value)
  | string (s : String)
  | int (n : Int)
  | bool (b : Bool)
  | object (kvs : List (String × Value))

/-- The text Go's `%T` verb prints for the dynamic type of a value. -/
def Value.typeName : Value → String
  | .nil => "<nil>"
  | .float64 _ => "float64"
  | .float64Slice _ => "[]float64"
  | .ifaceSlice _ => "[]interface \x7b\x7d"
  | .string _ => "string"
  | .int _ => "int"
  | .bool _ => "bool"
  | .object _ => "map[string]interface \x7b\x7d"

/-- The loop of `decodeBoundingBox` over the elements of a `[]interface{}`:
a `float64` element is appended to `bb`, any other element returns the error. -/
def decodeElements : List Value → List F64 → Except String (List F64)
  | [], bb => .ok bb
  | .float64 c :: vs, bb => decodeElements vs (bb ++ [c])
  | v :: _, _ => .error ("bounding box coordinate not usable, got " ++ v.typeName)

/-- Source function `decodeBoundingBox`: `.ok none` is the result `nil, nil`. -/
def decodeBoundingBox (bb : Value) : Except String (Option (List F64)) :=
  match bb with
  | .nil => .ok none
  | .float64Slice f => .ok f
  | .ifaceSlice f =>
    match decodeElements f [] with
    | .ok bb => .ok (some bb)
    | .error e => .error e
  | v => .error ("bounding box property not usable, got " ++ v.typeName)

/-! ## `checkBoundingBox` and `GetBoundingBox` -/

/-- Source function `checkBoundingBox`. -/
def checkBoundingBox (min max : Vec2) : Bool :=
  F64.le min.1 max.1 && F64.le min.2 max.2

/-- The override branch shared by the three methods: reads indices 0 to 3 of a
non-nil `BoundingBox`; an index out of range panics (`none`). -/
def overrideBounds (b : List F64) : Option Bounds :=
  match b[0]?, b[1]?, b[2]?, b[3]? with
  | some x0, some y0, some x1, some y1 =>
    some ((x0, y0), (x1, y1), checkBoundingBox (x0, y0) (x1, y1))
  | _, _, _, _ => none

/-- The sentinel accumulators `min = (MaxFloat64, MaxFloat64)` and
`max = (-MaxFloat64, -MaxFloat64)`. -/
def sentinel : Vec2 × Vec2 :=
  ((F64.MaxFloat64, F64.MaxFloat64), (F64.neg F64.MaxFloat64, F64.neg F64.MaxFloat64))

/-- One iteration of a coordinate loop: the four `math.Min` / `math.Max`
assignments for the coordinate `c`. -/
def extend (acc : Vec2 × Vec2) (c : Coordinate) : Vec2 × Vec2 :=
  ((F64.Min acc.1.1 c.X, F64.Min acc.1.2 c.Y), (F64.Max acc.2.1 c.X, F64.Max acc.2.2 c.Y))

/-- The loop over one sequence of coordinates (MultiPoint, LineString, or one
line of a nested variant). -/
def extendLine (acc : Vec2 × Vec2) (line : List Coordinate) : Vec2 × Vec2 :=
  line.foldl extend acc

/-- The two nested loops of MultiLineString and Polygon. -/
def extendLines (acc : Vec2 × Vec2) (lines : List (List Coordinate)) : Vec2 × Vec2 :=
  lines.foldl extendLine acc

/-- The three nested loops of MultiPolygon. -/
def extendPolys (acc : Vec2 × Vec2) (polys : List (List (List Coordinate))) : Vec2 × Vec2 :=
  polys.foldl extendLines acc

/-- The body of the GeometryCollection and FeatureCollection loops: a child
result with `ok` true is folded into the accumulators, another one is skipped. -/
def merge (acc : Vec2 × Vec2) (t : Bounds) : Vec2 × Vec2 :=
  if t.2.2 then
    ((F64.Min acc.1.1 t.1.1, F64.Min acc.1.2 t.1.2),
     (F64.Max acc.2.1 t.2.1.1, F64.Max acc.2.2 t.2.1.2))
  else acc

mutual
/-- Source method `(*Geometry).GetBoundingBox`; `none` is a run-time panic. -/
def Geometry.GetBoundingBox : Geometry → Option Bounds
  | .mk type bbox point multiPoint lineString multiLineString polygon multiPolygon geometries =>
    match bbox with
    | some b => overrideBounds b
    | none =>
      let acc : Option (Vec2 × Vec2) :=
        match type with
        | .GeometryPoint => some ((point.X, point.Y), (point.X, point.Y))
        | .GeometryMultiPoint => some (extendLine sentinel multiPoint)
        | .GeometryLineString => some (extendLine sentinel lineString)
        | .GeometryMultiLineString => some (extendLines sentinel multiLineString)
        | .GeometryPolygon => some (extendLines sentinel polygon)
        | .GeometryMultiPolygon => some (extendPolys sentinel multiPolygon)
        | .GeometryCollection => Geometry.collect geometries sentinel
        | .unknown => some sentinel
      match acc with
      | some (min, max) => some (min, max, checkBoundingBox min max)
      | none => none
/-- The loop of the GeometryCollection case over the children, from the
accumulators `acc`; a panic in a child call ends the loop with the panic. -/
def Geometry.collect : List Geometry → Vec2 × Vec2 → Option (Vec2 × Vec2)
  | [], acc => some acc
  | g :: gs, acc =>
    match Geometry.GetBoundingBox g with
    | some t => Geometry.collect gs (merge acc t)
    | none => none
end

/-- Source method `(*Feature).GetBoundingBox`. -/
def Feature.GetBoundingBox (f : Feature) : Option Bounds :=
  match f.BoundingBox with
  | some b => overrideBounds b
  | none => f.Geometry.GetBoundingBox

/-- The loop of `(*FeatureCollection).GetBoundingBox` over the features. -/
def FeatureCollection.collect : List Feature → Vec2 × Vec2 → Option (Vec2 × Vec2)
  | [], acc => some acc
  | f :: fs, acc =>
    match f.GetBoundingBox with
    | some t => FeatureCollection.collect fs (merge acc t)
    | none => none

/-- Source method `(*FeatureCollection).GetBoundingBox`. -/
def FeatureCollection.GetBoundingBox (fc : FeatureCollection) : Option Bounds :=
  match fc.BoundingBox with
  | some b => overrideBounds b
  | none =>
    match FeatureCollection.collect fc.Features sentinel with
    | some (min, max) => some (min, max, checkBoundingBox min max)
    | none => none

/-! ## Helpers to write geometries -/

/-- A Point geometry without override. -/
def Geometry.point (c : Coordinate) : Geometry :=
  .mk .GeometryPoint none c [] [] [] [] [] []

/-- A MultiPoint geometry without override. -/
def Geometry.multiPoint (cs : List Coordinate) : Geometry :=
  .mk .GeometryMultiPoint none ⟨0, 0⟩ cs [] [] [] [] []

/-- A GeometryCollection without override. -/
def Geometry.collection (gs : List Geometry) : Geometry :=
  .mk .GeometryCollection none ⟨0, 0⟩ [] [] [] [] [] gs

/-- A LineString geometry without override. -/
def Geometry.lineString (cs : List Coordinate) : Geometry :=
  .mk .GeometryLineString none ⟨0, 0⟩ [] cs [] [] [] []

/-- A MultiPolygon geometry without override. -/
def Geometry.multiPolygon (ps : List (List (List Coordinate))) : Geometry :=
  .mk .GeometryMultiPolygon none ⟨0, 0⟩ [] [] [] [] ps []

/-! ## Notions the properties are stated with -/

/-- The total order of the bit patterns that `Min` and `Max` select by:
the numeric order `toOrd`, with `-0` strictly below `+0`. -/
def F64.tOrd (x : F64) : Int :=
  if x.sign then -(x.mag.val : Int) - 1 else (x.mag.val : Int)

mutual
/-- All coordinates a geometry holds: the payload of its variant, and for a
GeometryCollection the coordinates of all its children, recursively. -/
def Geometry.coordinates : Geometry → List Coordinate
  | .mk type _ point multiPoint lineString multiLineString polygon multiPolygon geometries =>
    match type with
    | .GeometryPoint => [point]
    | .GeometryMultiPoint => multiPoint
    | .GeometryLineString => lineString
    | .GeometryMultiLineString => multiLineString.flatten
    | .GeometryPolygon => polygon.flatten
    | .GeometryMultiPolygon => multiPolygon.flatten.flatten
    | .GeometryCollection => Geometry.coordinatesList geometries
    | .unknown => []
/-- The coordinates of a list of geometries, in order. -/
def Geometry.coordinatesList : List Geometry → List Coordinate
  | [] => []
  | g :: gs => Geometry.coordinates g ++ Geometry.coordinatesList gs
end

mutual
/-- Neither the geometry nor any descendant (child of a GeometryCollection,
recursively) carries an override bounding box. -/
def Geometry.noOverride : Geometry → Bool
  | .mk type bbox _ _ _ _ _ _ geometries =>
    bbox.isNone &&
      (match type with
       | .GeometryCollection => Geometry.noOverrideList geometries
       | _ => true)
/-- No geometry of the list has an override anywhere. -/
def Geometry.noOverrideList : List Geometry → Bool
  | [] => true
  | g :: gs => Geometry.noOverride g && Geometry.noOverrideList gs
end

mutual
/-- Every override that `GetBoundingBox` reads has at least 4 values: the
geometry's own override when it has one, else (for a GeometryCollection) those
its children read. -/
def Geometry.overridesIndexable : Geometry → Bool
  | .mk type bbox _ _ _ _ _ _ geometries =>
    match bbox with
    | some b => decide (4 ≤ b.length)
    | none =>
      match type with
      | .GeometryCollection => Geometry.overridesIndexableList geometries
      | _ => true
/-- Every geometry of the list is `overridesIndexable`. -/
def Geometry.overridesIndexableList : List Geometry → Bool
  | [] => true
  | g :: gs => Geometry.overridesIndexable g && Geometry.overridesIndexableList gs
end

/-- The override a feature's `GetBoundingBox` reads has at least 4 values. -/
def Feature.overridesIndexable (f : Feature) : Bool :=
  match f.BoundingBox with
  | some b => decide (4 ≤ b.length)
  | none => f.Geometry.overridesIndexable

/-- The overrides a feature collection's `GetBoundingBox` reads have at least
4 values. -/
def FeatureCollection.overridesIndexable (fc : FeatureCollection) : Bool :=
  match fc.BoundingBox with
  | some b => decide (4 ≤ b.length)
  | none => fc.Features.all Feature.overridesIndexable

/-- The box `acc` encloses the coordinate `c`, by Go's `<=`. -/
def Encloses (min max : Vec2) (c : Coordinate) : Prop :=
  F64.le min.1 c.X = true ∧ F64.le c.X max.1 = true ∧
    F64.le min.2 c.Y = true ∧ F64.le c.Y max.2 = true

/-- The child result is one that reports `ok = false`. -/
def reportsInvalid : Option Bounds → Bool
  | some (_, _, false) => true
  | _ => false

/-- The componentwise minimum and maximum of the sentinels and a list of
boxes, taken in order. -/
def aggregate (boxes : List Bounds) : Bounds :=
  let min : Vec2 :=
    ((boxes.map (fun t => t.1.1)).foldl F64.Min F64.MaxFloat64,
     (boxes.map (fun t => t.1.2)).foldl F64.Min F64.MaxFloat64)
  let max : Vec2 :=
    ((boxes.map (fun t => t.2.1.1)).foldl F64.Max (F64.neg F64.MaxFloat64),
     (boxes.map (fun t => t.2.1.2)).foldl F64.Max (F64.neg F64.MaxFloat64))
  (min, max, checkBoundingBox min max)

/-- The raw value is a sequence of untyped elements with an element that is
not a float64. -/
def Value.hasNonFloatElement : Value → Prop
  | .ifaceSlice vs => ∃ v ∈ vs, ∀ x, v ≠ Value.float64 x
  | _ => False

/-- The raw value is neither absent, nor a []float64, nor a []interface{}. -/
def Value.isOtherShape : Value → Prop
  | .nil => False
  | .float64Slice _ => False
  | .ifaceSlice _ => False
  | _ => True

/-- All four accumulator components are not NaN. -/
def NotNaNAcc (acc : Vec2 × Vec2) : Prop :=
  acc.1.1.IsNaN = false ∧ acc.1.2.IsNaN = false ∧
    acc.2.1.IsNaN = false ∧ acc.2.2.IsNaN = false

/-- Each accumulator component is its sentinel or the matching component of
one of the coordinates `cs`. -/
def Attained (acc : Vec2 × Vec2) (cs : List Coordinate) : Prop :=
  (acc.1.1 = F64.MaxFloat64 ∨ ∃ c ∈ cs, c.X = acc.1.1) ∧
    (acc.1.2 = F64.MaxFloat64 ∨ ∃ c ∈ cs, c.Y = acc.1.2) ∧
    (acc.2.1 = F64.neg F64.MaxFloat64 ∨ ∃ c ∈ cs, c.X = acc.2.1) ∧
    (acc.2.2 = F64.neg F64.MaxFloat64 ∨ ∃ c ∈ cs, c.Y = acc.2.2)

/-- The loop invariant of the accumulators after the coordinates `cs` have
been folded in: no NaN, every coordinate enclosed, every component attained. -/
def AccInv (acc : Vec2 × Vec2) (cs : List Coordinate) : Prop :=
  NotNaNAcc acc ∧ (∀ c ∈ cs, Encloses acc.1 acc.2 c) ∧ Attained acc cs

/-- No coordinate of the list has a NaN component. -/
def NoNaN (cs : List Coordinate) : Prop :=
  ∀ c ∈ cs, c.X.IsNaN = false ∧ c.Y.IsNaN = false

/-- Every coordinate of the list has finite components. -/
def AllFinite (cs : List Coordinate) : Prop :=
  ∀ c ∈ cs, c.X.IsFinite = true ∧ c.Y.IsFinite = true

/-- The child result is one that reports `ok = true`. -/
def reportsValid : Option Bounds → Bool
  | some (_, _, true) => true
  | _ => false

/-- The loop of the GeometryCollection case with the recursive call given as
`call`, whose result `none` says that the call exceeded the recursion depth
allowed to it; `some none` is a panic. -/
def Geometry.collectDepth (call : Geometry → Option (Option Bounds)) :
    List Geometry → Vec2 × Vec2 → Option (Option (Vec2 × Vec2))
  | [], acc => some (some acc)
  | g :: gs, acc =>
    match call g with
    | none => none
    | some none => some none
    | some (some t) => Geometry.collectDepth call gs (merge acc t)

/-- Source method `(*Geometry).GetBoundingBox` run with at most `d` nested
activations of itself: an activation uses one unit and gives the rest to its
recursive calls. The result `none` says that `d` did not suffice. -/
def Geometry.GetBoundingBoxDepth : Nat → Geometry → Option (Option Bounds)
  | 0, _ => none
  | d + 1, .mk type bbox point multiPoint lineString multiLineString polygon multiPolygon
      geometries =>
    match bbox with
    | some b => some (overrideBounds b)
    | none =>
      let acc : Option (Option (Vec2 × Vec2)) :=
        match type with
        | .GeometryPoint => some (some ((point.X, point.Y), (point.X, point.Y)))
        | .GeometryMultiPoint => some (some (extendLine sentinel multiPoint))
        | .GeometryLineString => some (some (extendLine sentinel lineString))
        | .GeometryMultiLineString => some (some (extendLines sentinel multiLineString))
        | .GeometryPolygon => some (some (extendLines sentinel polygon))
        | .GeometryMultiPolygon => some (some (extendPolys sentinel multiPolygon))
        | .GeometryCollection =>
          Geometry.collectDepth (Geometry.GetBoundingBoxDepth d) geometries sentinel
        | .unknown => some (some sentinel)
      match acc with
      | some (some (min, max)) => some (some (min, max, checkBoundingBox min max))
      | some none => some none
      | none => none

mutual
/-- The GeometryCollection nesting depth as `GetBoundingBox` sees it: 1 for a
geometry with an override or of a variant other than GeometryCollection, and
one more than the deepest child for a GeometryCollection without override. -/
def Geometry.depth : Geometry → Nat
  | .mk type bbox _ _ _ _ _ _ geometries =>
    match bbox with
    | some _ => 1
    | none =>
      match type with
      | .GeometryCollection => 1 + Geometry.depthList geometries
      | _ => 1
/-- The largest depth of a geometry of the list. -/
def Geometry.depthList : List Geometry → Nat
  | [] => 0
  | g :: gs => max (Geometry.depth g) (Geometry.depthList gs)
end

/-- The geometry `g` wrapped in `n` nested GeometryCollections without
override. -/
def Geometry.nest : Nat → Geometry → Geometry
  | 0, g => g
  | n + 1, g => Geometry.collection [Geometry.nest n g]

/-! ## Lemmas on float64 -/

namespace F64

theorem tOrd_inj {x y : F64} (h : x.tOrd = y.tOrd) : x = y := by
  obtain ⟨sx, ⟨mx, hmx⟩⟩ := x
  obtain ⟨sy, ⟨my, hmy⟩⟩ := y
  cases sx <;> cases sy <;> simp [tOrd] at h ⊢ <;> omega

theorem Min_eq_ite {x y : F64} (hx : x.IsNaN = false) (hy : y.IsNaN = false) :
    Min x y = if x.tOrd ≤ y.tOrd then x else y := by
  obtain ⟨sx, ⟨mx, hmx⟩⟩ := x
  obtain ⟨sy, ⟨my, hmy⟩⟩ := y
  simp only [IsNaN, infMag, decide_eq_false_iff_not, not_lt] at hx hy
  cases sx <;> cases sy <;>
    simp [Min, IsInf, IsNaN, Inf, NaN, eq, lt, zero, Signbit, toOrd, tOrd, ofBits, infMag] <;>
    (split_ifs <;> first
      | rfl
      | omega
      | (simp only [F64.mk.injEq, Fin.ext_iff, true_and]; omega))

theorem Max_eq_ite {x y : F64} (hx : x.IsNaN = false) (hy : y.IsNaN = false) :
    Max x y = if x.tOrd ≤ y.tOrd then y else x := by
  obtain ⟨sx, ⟨mx, hmx⟩⟩ := x
  obtain ⟨sy, ⟨my, hmy⟩⟩ := y
  simp only [IsNaN, infMag, decide_eq_false_iff_not, not_lt] at hx hy
  cases sx <;> cases sy <;>
    simp [Max, IsInf, IsNaN, Inf, NaN, eq, lt, zero, Signbit, toOrd, tOrd, ofBits, infMag] <;>
    (split_ifs <;> first
      | rfl
      | omega
      | (simp only [F64.mk.injEq, Fin.ext_iff, true_and]; omega))

theorem toOrd_mono {x y : F64} (h : x.tOrd ≤ y.tOrd) : x.toOrd ≤ y.toOrd := by
  obtain ⟨sx, ⟨mx, hmx⟩⟩ := x
  obtain ⟨sy, ⟨my, hmy⟩⟩ := y
  cases sx <;> cases sy <;> simp [tOrd, toOrd] at h ⊢ <;> omega

theorem le_iff {x y : F64} (hx : x.IsNaN = false) (hy : y.IsNaN = false) :
    le x y = true ↔ x.toOrd ≤ y.toOrd := by
  simp [le, hx, hy]

theorem isNaN_of_le_left {x y : F64} (h : le x y = true) : x.IsNaN = false := by
  simp [le] at h; exact h.1.1

theorem isNaN_of_le_right {x y : F64} (h : le x y = true) : y.IsNaN = false := by
  simp [le] at h; exact h.1.2

theorem le_refl {x : F64} (hx : x.IsNaN = false) : le x x = true := by
  simp [le, hx]

theorem le_trans {x y z : F64} (h1 : le x y = true) (h2 : le y z = true) :
    le x z = true := by
  simp [le] at h1 h2 ⊢
  exact ⟨⟨h1.1.1, h2.1.2⟩, Int.le_trans h1.2 h2.2⟩

theorem Min_isNaN {x y : F64} (hx : x.IsNaN = false) (hy : y.IsNaN = false) :
    (Min x y).IsNaN = false := by
  rw [Min_eq_ite hx hy]; split_ifs <;> assumption

theorem Max_isNaN {x y : F64} (hx : x.IsNaN = false) (hy : y.IsNaN = false) :
    (Max x y).IsNaN = false := by
  rw [Max_eq_ite hx hy]; split_ifs <;> assumption

theorem Min_eq_or {x y : F64} (hx : x.IsNaN = false) (hy : y.IsNaN = false) :
    Min x y = x ∨ Min x y = y := by
  rw [Min_eq_ite hx hy]; split_ifs <;> simp

theorem Max_eq_or {x y : F64} (hx : x.IsNaN = false) (hy : y.IsNaN = false) :
    Max x y = x ∨ Max x y = y := by
  rw [Max_eq_ite hx hy]; split_ifs <;> simp

theorem Min_le_left {x y : F64} (hx : x.IsNaN = false) (hy : y.IsNaN = false) :
    le (Min x y) x = true := by
  rw [Min_eq_ite hx hy]
  split_ifs with h
  · exact le_refl hx
  · exact (le_iff hy hx).2 (toOrd_mono (by omega))

theorem Min_le_right {x y : F64} (hx : x.IsNaN = false) (hy : y.IsNaN = false) :
    le (Min x y) y = true := by
  rw [Min_eq_ite hx hy]
  split_ifs with h
  · exact (le_iff hx hy).2 (toOrd_mono h)
  · exact le_refl hy

theorem le_Max_left {x y : F64} (hx : x.IsNaN = false) (hy : y.IsNaN = false) :
    le x (Max x y) = true := by
  rw [Max_eq_ite hx hy]
  split_ifs with h
  · exact (le_iff hx hy).2 (toOrd_mono h)
  · exact le_refl hx

theorem le_Max_right {x y : F64} (hx : x.IsNaN = false) (hy : y.IsNaN = false) :
    le y (Max x y) = true := by
  rw [Max_eq_ite hx hy]
  split_ifs with h
  · exact le_refl hy
  · exact (le_iff hy hx).2 (toOrd_mono (by omega))

theorem isNaN_of_isFinite {x : F64} (h : x.IsFinite = true) : x.IsNaN = false := by
  simp [IsFinite, IsNaN] at h ⊢; omega

theorem isNaN_MaxFloat64 : MaxFloat64.IsNaN = false := by decide

theorem isNaN_neg_MaxFloat64 : (neg MaxFloat64).IsNaN = false := by decide

theorem toOrd_MaxFloat64 : MaxFloat64.toOrd = 9218868437227405311 := by decide

theorem tOrd_MaxFloat64 : MaxFloat64.tOrd = 9218868437227405311 := by decide

theorem toOrd_neg_MaxFloat64 : (neg MaxFloat64).toOrd = -9218868437227405311 := by decide

theorem tOrd_neg_MaxFloat64 : (neg MaxFloat64).tOrd = -9218868437227405312 := by decide

/-- A finite value that `MaxFloat64` is `<=` to is `MaxFloat64` itself. -/
theorem eq_MaxFloat64_of_le {x : F64} (hf : x.IsFinite = true)
    (h : le MaxFloat64 x = true) : x = MaxFloat64 := by
  have h1 := (le_iff isNaN_MaxFloat64 (isNaN_of_isFinite hf)).1 h
  rw [toOrd_MaxFloat64] at h1
  apply tOrd_inj
  rw [tOrd_MaxFloat64]
  obtain ⟨sx, ⟨mx, hmx⟩⟩ := x
  cases sx <;> simp [IsFinite, toOrd, tOrd, infMag] at hf h1 ⊢ <;> omega

/-- A finite value that is `<=` to `-MaxFloat64` is `-MaxFloat64` itself. -/
theorem eq_neg_MaxFloat64_of_le {x : F64} (hf : x.IsFinite = true)
    (h : le x (neg MaxFloat64) = true) : x = neg MaxFloat64 := by
  have h1 := (le_iff (isNaN_of_isFinite hf) isNaN_neg_MaxFloat64).1 h
  rw [toOrd_neg_MaxFloat64] at h1
  apply tOrd_inj
  rw [tOrd_neg_MaxFloat64]
  obtain ⟨sx, ⟨mx, hmx⟩⟩ := x
  cases sx <;> simp [IsFinite, toOrd, tOrd, infMag] at hf h1 ⊢ <;> omega

end F64

/-! ## Induction over geometry trees -/

mutual
/-- Induction over a geometry tree: a property holds of every geometry when
it holds of a geometry whose children all have it. -/
theorem Geometry.induct {P : Geometry → Prop}
    (h : ∀ type bbox pt mp ls mls pg mpg gs, (∀ g ∈ gs, P g) →
      P (.mk type bbox pt mp ls mls pg mpg gs)) : ∀ g, P g
  | .mk type bbox pt mp ls mls pg mpg gs =>
    h type bbox pt mp ls mls pg mpg gs (Geometry.induct_list h gs)
/-- The list part of `Geometry.induct`. -/
theorem Geometry.induct_list {P : Geometry → Prop}
    (h : ∀ type bbox pt mp ls mls pg mpg gs, (∀ g ∈ gs, P g) →
      P (.mk type bbox pt mp ls mls pg mpg gs)) : ∀ gs : List Geometry, ∀ g ∈ gs, P g
  | [], _, hg => absurd hg (List.not_mem_nil _)
  | g :: gs, g', hg =>
    match List.mem_cons.1 hg with
    | Or.inl e => e ▸ Geometry.induct h g
    | Or.inr hm => Geometry.induct_list h gs g' hm
end

/-! ## Lemmas on the accumulator loops -/

theorem checkBoundingBox_sentinel : checkBoundingBox sentinel.1 sentinel.2 = false := by
  decide

theorem accInv_sentinel : AccInv sentinel [] := by
  refine ⟨⟨by decide, by decide, by decide, by decide⟩, ?_, ?_⟩
  · intro c hc; simp at hc
  · exact ⟨Or.inl rfl, Or.inl rfl, Or.inl rfl, Or.inl rfl⟩

/-- Folding a box `(c1, c2)` whose components are not NaN and attained in `cs2`
into accumulators that satisfy the invariant keeps the invariant. -/
theorem accInv_fold {acc : Vec2 × Vec2} {cs cs2 : List Coordinate} {mn mx : Vec2}
    (h : AccInv acc cs) (h2 : AccInv (mn, mx) cs2) :
    AccInv ((F64.Min acc.1.1 mn.1, F64.Min acc.1.2 mn.2),
      (F64.Max acc.2.1 mx.1, F64.Max acc.2.2 mx.2)) (cs ++ cs2) := by
  obtain ⟨⟨a1, a2, a3, a4⟩, he, o1, o2, o3, o4⟩ := h
  obtain ⟨⟨b1, b2, b3, b4⟩, he2, p1, p2, p3, p4⟩ := h2
  simp only at b1 b2 b3 b4 p1 p2 p3 p4 he2
  refine ⟨⟨F64.Min_isNaN a1 b1, F64.Min_isNaN a2 b2, F64.Max_isNaN a3 b3,
    F64.Max_isNaN a4 b4⟩, ?_, ?_, ?_, ?_, ?_⟩
  · intro c hc
    rcases List.mem_append.1 hc with hc | hc
    · obtain ⟨e1, e2, e3, e4⟩ := he c hc
      exact ⟨F64.le_trans (F64.Min_le_left a1 b1) e1,
        F64.le_trans e2 (F64.le_Max_left a3 b3),
        F64.le_trans (F64.Min_le_left a2 b2) e3,
        F64.le_trans e4 (F64.le_Max_left a4 b4)⟩
    · obtain ⟨e1, e2, e3, e4⟩ := he2 c hc
      exact ⟨F64.le_trans (F64.Min_le_right a1 b1) e1,
        F64.le_trans e2 (F64.le_Max_right a3 b3),
        F64.le_trans (F64.Min_le_right a2 b2) e3,
        F64.le_trans e4 (F64.le_Max_right a4 b4)⟩
  · rcases F64.Min_eq_or a1 b1 with e | e <;> simp only [e]
    · rcases o1 with o | ⟨c, hc, o⟩
      · exact Or.inl o
      · exact Or.inr ⟨c, List.mem_append_left _ hc, o⟩
    · rcases p1 with o | ⟨c, hc, o⟩
      · exact Or.inl o
      · exact Or.inr ⟨c, List.mem_append_right _ hc, o⟩
  · rcases F64.Min_eq_or a2 b2 with e | e <;> simp only [e]
    · rcases o2 with o | ⟨c, hc, o⟩
      · exact Or.inl o
      · exact Or.inr ⟨c, List.mem_append_left _ hc, o⟩
    · rcases p2 with o | ⟨c, hc, o⟩
      · exact Or.inl o
      · exact Or.inr ⟨c, List.mem_append_right _ hc, o⟩
  · rcases F64.Max_eq_or a3 b3 with e | e <;> simp only [e]
    · rcases o3 with o | ⟨c, hc, o⟩
      · exact Or.inl o
      · exact Or.inr ⟨c, List.mem_append_left _ hc, o⟩
    · rcases p3 with o | ⟨c, hc, o⟩
      · exact Or.inl o
      · exact Or.inr ⟨c, List.mem_append_right _ hc, o⟩
  · rcases F64.Max_eq_or a4 b4 with e | e <;> simp only [e]
    · rcases o4 with o | ⟨c, hc, o⟩
      · exact Or.inl o
      · exact Or.inr ⟨c, List.mem_append_left _ hc, o⟩
    · rcases p4 with o | ⟨c, hc, o⟩
      · exact Or.inl o
      · exact Or.inr ⟨c, List.mem_append_right _ hc, o⟩

/-- A single coordinate without NaN is its own box. -/
theorem accInv_point {c : Coordinate} (hx : c.X.IsNaN = false) (hy : c.Y.IsNaN = false) :
    AccInv ((c.X, c.Y), (c.X, c.Y)) [c] := by
  refine ⟨⟨hx, hy, hx, hy⟩, ?_, ?_⟩
  · intro d hd
    rw [List.mem_singleton] at hd
    subst hd
    exact ⟨F64.le_refl hx, F64.le_refl hx, F64.le_refl hy, F64.le_refl hy⟩
  · exact ⟨Or.inr ⟨c, by simp, rfl⟩, Or.inr ⟨c, by simp, rfl⟩,
      Or.inr ⟨c, by simp, rfl⟩, Or.inr ⟨c, by simp, rfl⟩⟩

theorem accInv_extend {acc : Vec2 × Vec2} {cs : List Coordinate} {c : Coordinate}
    (h : AccInv acc cs) (hx : c.X.IsNaN = false) (hy : c.Y.IsNaN = false) :
    AccInv (extend acc c) (cs ++ [c]) :=
  accInv_fold h (accInv_point hx hy)

theorem accInv_extendLine {line : List Coordinate} :
    ∀ {acc : Vec2 × Vec2} {cs : List Coordinate}, AccInv acc cs → NoNaN line →
      AccInv (extendLine acc line) (cs ++ line) := by
  induction line with
  | nil => intro acc cs h _; simpa [extendLine] using h
  | cons c line ih =>
    intro acc cs h hn
    have hc := hn c (by simp)
    have := ih (accInv_extend h hc.1 hc.2) (fun d hd => hn d (List.mem_cons_of_mem _ hd))
    simpa [extendLine] using this

theorem accInv_extendLines {lines : List (List Coordinate)} :
    ∀ {acc : Vec2 × Vec2} {cs : List Coordinate}, AccInv acc cs → NoNaN lines.flatten →
      AccInv (extendLines acc lines) (cs ++ lines.flatten) := by
  induction lines with
  | nil => intro acc cs h _; simpa [extendLines] using h
  | cons l lines ih =>
    intro acc cs h hn
    have h1 : AccInv (extendLine acc l) (cs ++ l) :=
      accInv_extendLine h
        (fun d hd => hn d (by rw [List.flatten_cons]; exact List.mem_append_left _ hd))
    have := ih h1
      (fun d hd => hn d (by rw [List.flatten_cons]; exact List.mem_append_right _ hd))
    simpa [extendLines, extendLine] using this

theorem accInv_extendPolys {polys : List (List (List Coordinate))} :
    ∀ {acc : Vec2 × Vec2} {cs : List Coordinate}, AccInv acc cs →
      NoNaN polys.flatten.flatten →
      AccInv (extendPolys acc polys) (cs ++ polys.flatten.flatten) := by
  induction polys with
  | nil => intro acc cs h _; simpa [extendPolys] using h
  | cons l polys ih =>
    intro acc cs h hn
    have h1 : AccInv (extendLines acc l) (cs ++ l.flatten) :=
      accInv_extendLines h
        (fun d hd => hn d (by
          rw [List.flatten_cons, List.flatten_append]; exact List.mem_append_left _ hd))
    have := ih h1
      (fun d hd => hn d (by
        rw [List.flatten_cons, List.flatten_append]; exact List.mem_append_right _ hd))
    simpa [extendPolys, extendLines] using this

/-- A box that encloses a coordinate passes `checkBoundingBox`. -/
theorem check_of_encloses {mn mx : Vec2} {c : Coordinate} (h : Encloses mn mx c) :
    checkBoundingBox mn mx = true := by
  obtain ⟨e1, e2, e3, e4⟩ := h
  simp [checkBoundingBox, F64.le_trans e1 e2, F64.le_trans e3 e4]

theorem accInv_merge {acc : Vec2 × Vec2} {cs cs2 : List Coordinate} {mn mx : Vec2}
    (h : AccInv acc cs) (h2 : AccInv (mn, mx) cs2) :
    AccInv (merge acc (mn, mx, checkBoundingBox mn mx)) (cs ++ cs2) := by
  unfold merge
  by_cases hok : checkBoundingBox mn mx = true
  · simp only [hok, if_true]
    exact accInv_fold h h2
  · have hnil : cs2 = [] := by
      cases cs2 with
      | nil => rfl
      | cons c t => exact absurd (check_of_encloses (h2.2.1 c (by simp))) hok
    subst hnil
    simpa [hok] using h

/-! ## The invariant of `GetBoundingBox` on trees without override -/

/-- The statement proved of every geometry by induction: without override and
without NaN, `GetBoundingBox` returns a box with the accumulator invariant. -/
theorem Geometry.collect_inv {gs : List Geometry}
    (ih : ∀ g ∈ gs, g.noOverride = true → NoNaN g.coordinates →
      ∃ mn mx, g.GetBoundingBox = some (mn, mx, checkBoundingBox mn mx) ∧
        AccInv (mn, mx) g.coordinates) :
    Geometry.noOverrideList gs = true → NoNaN (Geometry.coordinatesList gs) →
    ∀ (acc : Vec2 × Vec2) (cs : List Coordinate), AccInv acc cs →
      ∃ acc', Geometry.collect gs acc = some acc' ∧
        AccInv acc' (cs ++ Geometry.coordinatesList gs) := by
  induction gs with
  | nil =>
    intro _ _ acc cs h
    exact ⟨acc, by simp [Geometry.collect], by simpa [Geometry.coordinatesList] using h⟩
  | cons g gs ihl =>
    intro hno hn acc cs h
    simp only [Geometry.noOverrideList, Bool.and_eq_true] at hno
    simp only [Geometry.coordinatesList] at hn ⊢
    obtain ⟨mn, mx, hg, hinv⟩ := ih g (by simp) hno.1
      (fun c hc => hn c (List.mem_append_left _ hc))
    obtain ⟨acc', hc', hinv'⟩ := ihl (fun g' hg' => ih g' (List.mem_cons_of_mem _ hg')) hno.2
      (fun c hc => hn c (List.mem_append_right _ hc)) _ _ (accInv_merge h hinv)
    refine ⟨acc', ?_, ?_⟩
    · simp only [Geometry.collect, hg]
      exact hc'
    · simpa [List.append_assoc] using hinv'

theorem Geometry.bounds_inv : ∀ g : Geometry, g.noOverride = true → NoNaN g.coordinates →
    ∃ mn mx, g.GetBoundingBox = some (mn, mx, checkBoundingBox mn mx) ∧
      AccInv (mn, mx) g.coordinates := by
  apply Geometry.induct
  intro type bbox pt mp ls mls pg mpg gs ih hno hn
  cases bbox with
  | some b => simp [Geometry.noOverride] at hno
  | none =>
    cases type with
    | GeometryPoint =>
      have hc := hn pt (by simp [Geometry.coordinates])
      exact ⟨(pt.X, pt.Y), (pt.X, pt.Y), by simp [Geometry.GetBoundingBox],
        by simpa [Geometry.coordinates] using accInv_point hc.1 hc.2⟩
    | GeometryMultiPoint =>
      have : AccInv (extendLine sentinel mp) ([] ++ mp) := accInv_extendLine accInv_sentinel
        (by simpa [Geometry.coordinates] using hn)
      exact ⟨_, _, by simp [Geometry.GetBoundingBox]; exact ⟨rfl, rfl, rfl⟩,
        by simpa [Geometry.coordinates] using this⟩
    | GeometryLineString =>
      have : AccInv (extendLine sentinel ls) ([] ++ ls) := accInv_extendLine accInv_sentinel
        (by simpa [Geometry.coordinates] using hn)
      exact ⟨_, _, by simp [Geometry.GetBoundingBox]; exact ⟨rfl, rfl, rfl⟩,
        by simpa [Geometry.coordinates] using this⟩
    | GeometryMultiLineString =>
      have : AccInv (extendLines sentinel mls) ([] ++ mls.flatten) :=
        accInv_extendLines accInv_sentinel
        (by simpa [Geometry.coordinates] using hn)
      exact ⟨_, _, by simp [Geometry.GetBoundingBox]; exact ⟨rfl, rfl, rfl⟩,
        by simpa [Geometry.coordinates] using this⟩
    | GeometryPolygon =>
      have : AccInv (extendLines sentinel pg) ([] ++ pg.flatten) :=
        accInv_extendLines accInv_sentinel
        (by simpa [Geometry.coordinates] using hn)
      exact ⟨_, _, by simp [Geometry.GetBoundingBox]; exact ⟨rfl, rfl, rfl⟩,
        by simpa [Geometry.coordinates] using this⟩
    | GeometryMultiPolygon =>
      have : AccInv (extendPolys sentinel mpg) ([] ++ mpg.flatten.flatten) :=
        accInv_extendPolys accInv_sentinel
        (by simpa [Geometry.coordinates] using hn)
      exact ⟨_, _, by simp [Geometry.GetBoundingBox]; exact ⟨rfl, rfl, rfl⟩,
        by simpa [Geometry.coordinates] using this⟩
    | GeometryCollection =>
      obtain ⟨acc', hc, hinv⟩ := Geometry.collect_inv ih
        (by simpa [Geometry.noOverride] using hno)
        (by simpa [Geometry.coordinates] using hn) sentinel [] accInv_sentinel
      refine ⟨acc'.1, acc'.2, ?_, ?_⟩
      · simp [Geometry.GetBoundingBox, hc]
      · simpa [Geometry.coordinates] using hinv
    | unknown =>
      exact ⟨sentinel.1, sentinel.2, by simp [Geometry.GetBoundingBox],
        by simpa [Geometry.coordinates] using accInv_sentinel⟩

/-! ## The claims -/

/-- C1, as stated, fails on the code in two ways. With an override the
override is returned and the coordinates are not consulted: the Point (5,5)
with override [0,0,1,1] gets min=(0,0), max=(1,1), and 5 ≤ 1 is false. With a
NaN coordinate the comparison is false: the Point (NaN,0) gets ok = false. -/
theorem C1_counterexample :
    ((Geometry.mk .GeometryPoint (some [0, 0, 1, 1]) ⟨5, 5⟩ [] [] [] [] [] []).coordinates
        = [⟨5, 5⟩] ∧
      (Geometry.mk .GeometryPoint (some [0, 0, 1, 1]) ⟨5, 5⟩ [] [] [] [] [] []).GetBoundingBox
        = some ((0, 0), (1, 1), true) ∧
      F64.le 5 1 = false) ∧
    ((Geometry.point ⟨F64.NaN, 0⟩).coordinates = [⟨F64.NaN, 0⟩] ∧
      (Geometry.point ⟨F64.NaN, 0⟩).GetBoundingBox
        = some ((F64.NaN, 0), (F64.NaN, 0), false)) := by
  decide

/-- C1 (amended): for every Geometry in which neither the geometry nor any
descendant carries an override, whose coordinates have no NaN component, and
which has at least one coordinate, `GetBoundingBox` returns ok = true and every
coordinate (x,y) satisfies min.x ≤ x ≤ max.x and min.y ≤ y ≤ max.y. -/
theorem C1_bounds_enclose (g : Geometry) (hno : g.noOverride = true)
    (hnan : ∀ c ∈ g.coordinates, c.X.IsNaN = false ∧ c.Y.IsNaN = false)
    (hne : g.coordinates ≠ []) :
    ∃ mn mx, g.GetBoundingBox = some (mn, mx, true) ∧
      ∀ c ∈ g.coordinates,
        F64.le mn.1 c.X = true ∧ F64.le c.X mx.1 = true ∧
          F64.le mn.2 c.Y = true ∧ F64.le c.Y mx.2 = true := by
  obtain ⟨mn, mx, hg, _, he, _⟩ := Geometry.bounds_inv g hno hnan
  obtain ⟨c, hc⟩ := List.exists_mem_of_ne_nil _ hne
  refine ⟨mn, mx, ?_, he⟩
  rw [hg, check_of_encloses (he c hc)]

/-- C1 (amended) at a collection of an empty MultiPoint, the Point (3,4) and
the MultiPoint [(1,10)]. -/
theorem C1_bounds_enclose_witness :
    (Geometry.collection [Geometry.multiPoint [], Geometry.point ⟨3, 4⟩,
        Geometry.multiPoint [⟨1, 10⟩]]).noOverride = true ∧
    ∃ mn mx,
      (Geometry.collection [Geometry.multiPoint [], Geometry.point ⟨3, 4⟩,
        Geometry.multiPoint [⟨1, 10⟩]]).GetBoundingBox = some (mn, mx, true) ∧
      ∀ c ∈ (Geometry.collection [Geometry.multiPoint [], Geometry.point ⟨3, 4⟩,
          Geometry.multiPoint [⟨1, 10⟩]]).coordinates,
        F64.le mn.1 c.X = true ∧ F64.le c.X mx.1 = true ∧
          F64.le mn.2 c.Y = true ∧ F64.le c.Y mx.2 = true :=
  ⟨by decide, C1_bounds_enclose _ (by decide) (by decide) (by decide)⟩

/-- C2: an override of 4 values [x0,y0,x1,y1] on a Geometry, a Feature or a
FeatureCollection is returned as min=(x0,y0), max=(x1,y1), with
ok = checkBoundingBox, whatever the entity's other fields and children are;
with the override [0,0,10,10] the result is min=(0,0), max=(10,10), ok=true. -/
theorem C2_override_wins :
    (∀ (x0 y0 x1 y1 : F64) type pt mp ls mls pg mpg gs,
      (Geometry.mk type (some [x0, y0, x1, y1]) pt mp ls mls pg mpg gs).GetBoundingBox
        = some ((x0, y0), (x1, y1), checkBoundingBox (x0, y0) (x1, y1))) ∧
    (∀ (x0 y0 x1 y1 : F64) (g : Geometry),
      (Feature.mk (some [x0, y0, x1, y1]) g).GetBoundingBox
        = some ((x0, y0), (x1, y1), checkBoundingBox (x0, y0) (x1, y1))) ∧
    (∀ (x0 y0 x1 y1 : F64) (fs : List Feature),
      (FeatureCollection.mk (some [x0, y0, x1, y1]) fs).GetBoundingBox
        = some ((x0, y0), (x1, y1), checkBoundingBox (x0, y0) (x1, y1))) ∧
    (∀ type pt mp ls mls pg mpg gs,
      (Geometry.mk type (some [0, 0, 10, 10]) pt mp ls mls pg mpg gs).GetBoundingBox
        = some ((0, 0), (10, 10), true)) ∧
    (∀ g : Geometry,
      (Feature.mk (some [0, 0, 10, 10]) g).GetBoundingBox = some ((0, 0), (10, 10), true)) ∧
    (∀ fs : List Feature,
      (FeatureCollection.mk (some [0, 0, 10, 10]) fs).GetBoundingBox
        = some ((0, 0), (10, 10), true)) := by
  have hc : checkBoundingBox (0, 0) (10, 10) = true := by decide
  have hG : ∀ (x0 y0 x1 y1 : F64) type pt mp ls mls pg mpg gs,
      (Geometry.mk type (some [x0, y0, x1, y1]) pt mp ls mls pg mpg gs).GetBoundingBox
        = some ((x0, y0), (x1, y1), checkBoundingBox (x0, y0) (x1, y1)) := by
    intros; simp [Geometry.GetBoundingBox, overrideBounds]
  have hF : ∀ (x0 y0 x1 y1 : F64) (g : Geometry),
      (Feature.mk (some [x0, y0, x1, y1]) g).GetBoundingBox
        = some ((x0, y0), (x1, y1), checkBoundingBox (x0, y0) (x1, y1)) := by
    intros; simp [Feature.GetBoundingBox, overrideBounds]
  have hC : ∀ (x0 y0 x1 y1 : F64) (fs : List Feature),
      (FeatureCollection.mk (some [x0, y0, x1, y1]) fs).GetBoundingBox
        = some ((x0, y0), (x1, y1), checkBoundingBox (x0, y0) (x1, y1)) := by
    intros; simp [FeatureCollection.GetBoundingBox, overrideBounds]
  refine ⟨hG, hF, hC, ?_, ?_, ?_⟩
  · intros; rw [hG, hc]
  · intros; rw [hF, hc]
  · intros; rw [hC, hc]

/-- C3: for every Geometry tree without override anywhere, with finite
coordinates and at least one coordinate, `GetBoundingBox` returns the minimal
enclosing rectangle: every coordinate lies between the corners, and each of
min.x, min.y, max.x, max.y is the x or y of some coordinate of the tree. -/
theorem C3_minimal_rectangle (g : Geometry) (hno : g.noOverride = true)
    (hfin : ∀ c ∈ g.coordinates, c.X.IsFinite = true ∧ c.Y.IsFinite = true)
    (hne : g.coordinates ≠ []) :
    ∃ mn mx ok, g.GetBoundingBox = some (mn, mx, ok) ∧
      (∀ c ∈ g.coordinates,
        F64.le mn.1 c.X = true ∧ F64.le c.X mx.1 = true ∧
          F64.le mn.2 c.Y = true ∧ F64.le c.Y mx.2 = true) ∧
      (∃ c ∈ g.coordinates, c.X = mn.1) ∧ (∃ c ∈ g.coordinates, c.Y = mn.2) ∧
      (∃ c ∈ g.coordinates, c.X = mx.1) ∧ (∃ c ∈ g.coordinates, c.Y = mx.2) := by
  have hnan : NoNaN g.coordinates := fun c hc =>
    ⟨F64.isNaN_of_isFinite (hfin c hc).1, F64.isNaN_of_isFinite (hfin c hc).2⟩
  obtain ⟨mn, mx, hg, _, he, a1, a2, a3, a4⟩ := Geometry.bounds_inv g hno hnan
  obtain ⟨c, hc⟩ := List.exists_mem_of_ne_nil _ hne
  obtain ⟨e1, e2, e3, e4⟩ := he c hc
  simp only at a1 a2 a3 a4
  refine ⟨mn, mx, _, hg, he, ?_, ?_, ?_, ?_⟩
  · rcases a1 with a | a
    · exact ⟨c, hc, by rw [a]; exact F64.eq_MaxFloat64_of_le (hfin c hc).1 (a ▸ e1)⟩
    · exact a
  · rcases a2 with a | a
    · exact ⟨c, hc, by rw [a]; exact F64.eq_MaxFloat64_of_le (hfin c hc).2 (a ▸ e3)⟩
    · exact a
  · rcases a3 with a | a
    · exact ⟨c, hc, by rw [a]; exact F64.eq_neg_MaxFloat64_of_le (hfin c hc).1 (a ▸ e2)⟩
    · exact a
  · rcases a4 with a | a
    · exact ⟨c, hc, by rw [a]; exact F64.eq_neg_MaxFloat64_of_le (hfin c hc).2 (a ▸ e4)⟩
    · exact a

/-- C3 at a collection of an empty MultiPoint, the Point (3,4) and the
MultiPolygon [[[(1,10),(7,2)]]]. -/
theorem C3_minimal_rectangle_witness :
    (Geometry.collection [Geometry.multiPoint [], Geometry.point ⟨3, 4⟩,
        Geometry.multiPolygon [[[⟨1, 10⟩, ⟨7, 2⟩]]]]).coordinates ≠ [] ∧
    ∃ mn mx ok,
      (Geometry.collection [Geometry.multiPoint [], Geometry.point ⟨3, 4⟩,
        Geometry.multiPolygon [[[⟨1, 10⟩, ⟨7, 2⟩]]]]).GetBoundingBox = some (mn, mx, ok) ∧
      (∀ c ∈ (Geometry.collection [Geometry.multiPoint [], Geometry.point ⟨3, 4⟩,
          Geometry.multiPolygon [[[⟨1, 10⟩, ⟨7, 2⟩]]]]).coordinates,
        F64.le mn.1 c.X = true ∧ F64.le c.X mx.1 = true ∧
          F64.le mn.2 c.Y = true ∧ F64.le c.Y mx.2 = true) ∧
      (∃ c ∈ (Geometry.collection [Geometry.multiPoint [], Geometry.point ⟨3, 4⟩,
          Geometry.multiPolygon [[[⟨1, 10⟩, ⟨7, 2⟩]]]]).coordinates, c.X = mn.1) ∧
      (∃ c ∈ (Geometry.collection [Geometry.multiPoint [], Geometry.point ⟨3, 4⟩,
          Geometry.multiPolygon [[[⟨1, 10⟩, ⟨7, 2⟩]]]]).coordinates, c.Y = mn.2) ∧
      (∃ c ∈ (Geometry.collection [Geometry.multiPoint [], Geometry.point ⟨3, 4⟩,
          Geometry.multiPolygon [[[⟨1, 10⟩, ⟨7, 2⟩]]]]).coordinates, c.X = mx.1) ∧
      (∃ c ∈ (Geometry.collection [Geometry.multiPoint [], Geometry.point ⟨3, 4⟩,
          Geometry.multiPolygon [[[⟨1, 10⟩, ⟨7, 2⟩]]]]).coordinates, c.Y = mx.2) :=
  ⟨by decide, C3_minimal_rectangle _ (by decide) (by decide) (by decide)⟩

theorem overrideBounds_isSome (b : List F64) :
    (overrideBounds b).isSome = decide (4 ≤ b.length) := by
  match b with
  | [] => rfl
  | [_] => rfl
  | [_, _] => rfl
  | [_, _, _] => rfl
  | _ :: _ :: _ :: _ :: _ => simp [overrideBounds]

theorem Geometry.collect_isSome_eq {gs : List Geometry}
    (ih : ∀ g ∈ gs, g.GetBoundingBox.isSome = g.overridesIndexable) :
    ∀ acc, (Geometry.collect gs acc).isSome = Geometry.overridesIndexableList gs := by
  induction gs with
  | nil => intro acc; rfl
  | cons g gs ihl =>
    intro acc
    have hg := ih g (by simp)
    have hl := ihl (fun g' hg' => ih g' (List.mem_cons_of_mem _ hg'))
    simp only [Geometry.collect, Geometry.overridesIndexableList]
    cases h : g.GetBoundingBox with
    | none => rw [h] at hg; simp at hg; simp [← hg]
    | some t => rw [h] at hg; simp at hg; simp [← hg, hl]

theorem Geometry.geometry_returns_eq :
    ∀ g : Geometry, g.GetBoundingBox.isSome = g.overridesIndexable := by
  apply Geometry.induct
  intro type bbox pt mp ls mls pg mpg gs ih
  cases bbox with
  | some b => simp [Geometry.GetBoundingBox, Geometry.overridesIndexable, overrideBounds_isSome]
  | none =>
    cases type <;> simp [Geometry.GetBoundingBox, Geometry.overridesIndexable]
    have := Geometry.collect_isSome_eq ih sentinel
    cases h : Geometry.collect gs sentinel with
    | none => rw [h] at this; simpa using this
    | some a => rw [h] at this; simpa using this

theorem Feature.feature_returns_eq (f : Feature) :
    f.GetBoundingBox.isSome = f.overridesIndexable := by
  unfold Feature.GetBoundingBox Feature.overridesIndexable
  cases f.BoundingBox with
  | some b => simp [overrideBounds_isSome]
  | none => simp [Geometry.geometry_returns_eq]

theorem FeatureCollection.collectFeatures_isSome_eq (fs : List Feature) :
    ∀ acc, (FeatureCollection.collect fs acc).isSome = fs.all Feature.overridesIndexable := by
  induction fs with
  | nil => intro acc; rfl
  | cons f fs ihl =>
    intro acc
    have hf := Feature.feature_returns_eq f
    simp only [FeatureCollection.collect, List.all_cons]
    cases h : f.GetBoundingBox with
    | none => rw [h] at hf; simp at hf; simp [← hf]
    | some t => rw [h] at hf; simp at hf; simp [← hf, ihl]

/-- C4, as stated, fails on the code: the decoder turns an empty sequence of
untyped elements into a present override of zero values, and a sequence of
three numbers into an override of three values; `GetBoundingBox` of a
Geometry, Feature or FeatureCollection with such an override indexes it out of
range and panics instead of returning a result. -/
theorem C4_counterexample :
    decodeBoundingBox (.ifaceSlice []) = .ok (some []) ∧
    (Geometry.mk .GeometryPoint (some []) ⟨1, 1⟩ [] [] [] [] [] []).GetBoundingBox = none ∧
    decodeBoundingBox (.ifaceSlice [.float64 1, .float64 2, .float64 3])
      = .ok (some [1, 2, 3]) ∧
    (Geometry.mk .GeometryPoint (some [1, 2, 3]) ⟨1, 1⟩ [] [] [] [] [] []).GetBoundingBox
      = none ∧
    (Feature.mk (some []) (Geometry.point ⟨1, 1⟩)).GetBoundingBox = none ∧
    (FeatureCollection.mk (some []) []).GetBoundingBox = none ∧
    (Geometry.collection
      [Geometry.mk .GeometryPoint (some []) ⟨1, 1⟩ [] [] [] [] [] []]).GetBoundingBox
      = none :=
  ⟨rfl, by decide, rfl, by decide, by decide, by decide, by decide⟩

/-- C4 (amended): `GetBoundingBox` of a Geometry, a Feature or a
FeatureCollection returns a (min, max, ok) result exactly when every override
it reads has at least 4 values: the entity's own override when it has one, and
otherwise the overrides read by the children of a GeometryCollection, the
wrapped geometry of a Feature, or the features of a FeatureCollection. -/
theorem C4_total_iff_overrides_indexable :
    (∀ g : Geometry, g.GetBoundingBox.isSome = g.overridesIndexable) ∧
    (∀ f : Feature, f.GetBoundingBox.isSome = f.overridesIndexable) ∧
    (∀ fc : FeatureCollection, fc.GetBoundingBox.isSome = fc.overridesIndexable) := by
  refine ⟨Geometry.geometry_returns_eq, Feature.feature_returns_eq, ?_⟩
  intro fc
  unfold FeatureCollection.GetBoundingBox FeatureCollection.overridesIndexable
  cases fc.BoundingBox with
  | some b => simp [overrideBounds_isSome]
  | none =>
    have := FeatureCollection.collectFeatures_isSome_eq fc.Features sentinel
    cases h : FeatureCollection.collect fc.Features sentinel with
    | none => rw [h] at this; simpa using this
    | some a => rw [h] at this; simpa using this

/-! ### Collections -/

/-- The loop over the features returns the fold of `merge` over the feature
results when every feature call returns. -/
theorem FeatureCollection.collect_eq_foldl (fs : List Feature)
    (h : ∀ f ∈ fs, f.GetBoundingBox ≠ none) :
    ∀ acc, FeatureCollection.collect fs acc
      = some ((fs.filterMap Feature.GetBoundingBox).foldl merge acc) := by
  induction fs with
  | nil => intro acc; rfl
  | cons f fs ih =>
    intro acc
    have ih2 := ih (fun f' hf' => h f' (List.mem_cons_of_mem _ hf'))
    cases hf : f.GetBoundingBox with
    | none => exact absurd hf (h f (by simp))
    | some t => simp [FeatureCollection.collect, hf, List.filterMap_cons, ih2]

/-- Folding `merge` is the componentwise fold of `Min` / `Max` over the
results whose `ok` is true. -/
theorem foldl_merge_eq (rs : List Bounds) :
    ∀ acc : Vec2 × Vec2, rs.foldl merge acc =
      ((((rs.filter (fun t => t.2.2)).map (fun t => t.1.1)).foldl F64.Min acc.1.1,
        ((rs.filter (fun t => t.2.2)).map (fun t => t.1.2)).foldl F64.Min acc.1.2),
       (((rs.filter (fun t => t.2.2)).map (fun t => t.2.1.1)).foldl F64.Max acc.2.1,
        ((rs.filter (fun t => t.2.2)).map (fun t => t.2.1.2)).foldl F64.Max acc.2.2)) := by
  induction rs with
  | nil => intro acc; rfl
  | cons r rs ih =>
    intro acc
    obtain ⟨mn, mx, ok⟩ := r
    cases ok with
    | false => simpa [merge] using ih acc
    | true => simpa [merge] using ih _

/-- C5, as stated for every FeatureCollection without override, fails on the
code: when the override of a feature has fewer than 4 values (here zero, as
decoded from an empty sequence), the call on that feature panics and the call
on the collection returns no result at all. -/
theorem C5_counterexample :
    (FeatureCollection.mk none
        [⟨none, Geometry.point ⟨1, 1⟩⟩, ⟨some [], Geometry.point ⟨5, 5⟩⟩]).BoundingBox = none ∧
    (Feature.mk (some []) (Geometry.point ⟨5, 5⟩)).GetBoundingBox = none ∧
    (FeatureCollection.mk none
        [⟨none, Geometry.point ⟨1, 1⟩⟩, ⟨some [], Geometry.point ⟨5, 5⟩⟩]).GetBoundingBox
      = none :=
  ⟨rfl, by decide, by decide⟩

/-- C5 (amended): for every FeatureCollection without override whose feature
calls all return a result, `GetBoundingBox` returns the componentwise minimum
and maximum of the sentinels and of the boxes of exactly the features whose ok
is true, with ok = checkBoundingBox; for the features Point(1,1) and
Point(5,5) without overrides the result is min=(1,1), max=(5,5), ok=true. -/
theorem C5_feature_collection_aggregate :
    (∀ fc : FeatureCollection, fc.BoundingBox = none →
      (∀ f ∈ fc.Features, f.GetBoundingBox ≠ none) →
      fc.GetBoundingBox = some (aggregate
        ((fc.Features.filterMap Feature.GetBoundingBox).filter (fun t => t.2.2)))) ∧
    (FeatureCollection.mk none
        [⟨none, Geometry.point ⟨1, 1⟩⟩, ⟨none, Geometry.point ⟨5, 5⟩⟩]).GetBoundingBox
      = some ((1, 1), (5, 5), true) := by
  refine ⟨?_, by decide⟩
  intro fc hb hf
  unfold FeatureCollection.GetBoundingBox
  rw [hb]
  simp only [FeatureCollection.collect_eq_foldl fc.Features hf sentinel, foldl_merge_eq]
  rfl

/-- C5 at a collection whose features are Point(1,1), an empty MultiPoint
(invalid), a feature with the invalid override [10,0,0,10], and Point(5,5). -/
theorem C5_feature_collection_aggregate_witness :
    (FeatureCollection.mk none
        [⟨none, Geometry.point ⟨1, 1⟩⟩, ⟨none, Geometry.multiPoint []⟩,
         ⟨some [10, 0, 0, 10], Geometry.point ⟨7, 7⟩⟩,
         ⟨none, Geometry.point ⟨5, 5⟩⟩]).GetBoundingBox
      = some (aggregate
        (((FeatureCollection.mk none
            [⟨none, Geometry.point ⟨1, 1⟩⟩, ⟨none, Geometry.multiPoint []⟩,
             ⟨some [10, 0, 0, 10], Geometry.point ⟨7, 7⟩⟩,
             ⟨none, Geometry.point ⟨5, 5⟩⟩]).Features.filterMap
              Feature.GetBoundingBox).filter (fun t => t.2.2))) ∧
    aggregate
        (((FeatureCollection.mk none
            [⟨none, Geometry.point ⟨1, 1⟩⟩, ⟨none, Geometry.multiPoint []⟩,
             ⟨some [10, 0, 0, 10], Geometry.point ⟨7, 7⟩⟩,
             ⟨none, Geometry.point ⟨5, 5⟩⟩]).Features.filterMap
              Feature.GetBoundingBox).filter (fun t => t.2.2))
      = ((1, 1), (5, 5), true) :=
  ⟨C5_feature_collection_aggregate.1 _ rfl (by decide), by decide⟩

/-- Dropping the children that report ok = false does not change the loop. -/
theorem Geometry.collect_filter (gs : List Geometry) :
    ∀ acc, Geometry.collect gs acc
      = Geometry.collect (gs.filter (fun g => !reportsInvalid g.GetBoundingBox)) acc := by
  induction gs with
  | nil => intro acc; rfl
  | cons g gs ih =>
    intro acc
    cases hg : g.GetBoundingBox with
    | none => simp [List.filter_cons, hg, reportsInvalid, Geometry.collect]
    | some t =>
      obtain ⟨mn, mx, ok⟩ := t
      cases ok with
      | false =>
        simp only [List.filter_cons, hg, reportsInvalid, Geometry.collect]
        simpa [merge] using ih acc
      | true =>
        simp only [List.filter_cons, hg, reportsInvalid, Geometry.collect]
        simpa using ih _

/-- C6: for every GeometryCollection without override, `GetBoundingBox`
returns the same result as for the collection from which every child whose
own `GetBoundingBox` reports ok = false is removed; a collection of one empty
MultiPoint and Point(3,4) yields min=(3,4), max=(3,4), ok=true. -/
theorem C6_invalid_child_exclusion :
    (∀ pt mp ls mls pg mpg (gs : List Geometry),
      (Geometry.mk .GeometryCollection none pt mp ls mls pg mpg gs).GetBoundingBox
        = (Geometry.mk .GeometryCollection none pt mp ls mls pg mpg
            (gs.filter (fun g => !reportsInvalid g.GetBoundingBox))).GetBoundingBox) ∧
    (Geometry.collection [Geometry.multiPoint [], Geometry.point ⟨3, 4⟩]).GetBoundingBox
      = some ((3, 4), (3, 4), true) := by
  refine ⟨?_, by decide⟩
  intro pt mp ls mls pg mpg gs
  simp only [Geometry.GetBoundingBox]
  rw [← Geometry.collect_filter gs sentinel]

/-! ### Geometries without coordinates -/

theorem extendLines_of_flatten_nil {lines : List (List Coordinate)}
    (h : lines.flatten = []) : ∀ acc, extendLines acc lines = acc := by
  induction lines with
  | nil => intro acc; rfl
  | cons l lines ih =>
    intro acc
    rw [List.flatten_cons, List.append_eq_nil] at h
    have := ih h.2 acc
    simpa [extendLines, extendLine, h.1] using this

theorem extendPolys_of_flatten_nil {polys : List (List (List Coordinate))}
    (h : polys.flatten.flatten = []) : ∀ acc, extendPolys acc polys = acc := by
  induction polys with
  | nil => intro acc; rfl
  | cons l polys ih =>
    intro acc
    rw [List.flatten_cons, List.flatten_append, List.append_eq_nil] at h
    have := ih h.2 acc
    simpa [extendPolys, extendLines_of_flatten_nil h.1] using this

theorem Geometry.collect_of_no_coordinates {gs : List Geometry}
    (ih : ∀ g ∈ gs, g.noOverride = true → g.coordinates = [] →
      g.GetBoundingBox = some (sentinel.1, sentinel.2, false)) :
    Geometry.noOverrideList gs = true → Geometry.coordinatesList gs = [] →
    ∀ acc, Geometry.collect gs acc = some acc := by
  induction gs with
  | nil => intro _ _ acc; rfl
  | cons g gs ihl =>
    intro hno hc acc
    simp only [Geometry.noOverrideList, Bool.and_eq_true] at hno
    simp only [Geometry.coordinatesList, List.append_eq_nil] at hc
    have hg := ih g (by simp) hno.1 hc.1
    have hl := ihl (fun g' hg' => ih g' (List.mem_cons_of_mem _ hg')) hno.2 hc.2
    simp only [Geometry.collect, hg]
    simpa [merge] using hl acc

theorem Geometry.bounds_of_no_coordinates :
    ∀ g : Geometry, g.noOverride = true → g.coordinates = [] →
      g.GetBoundingBox = some (sentinel.1, sentinel.2, false) := by
  apply Geometry.induct
  intro type bbox pt mp ls mls pg mpg gs ih hno hc
  cases bbox with
  | some b => simp [Geometry.noOverride] at hno
  | none =>
    cases type with
    | GeometryPoint => simp [Geometry.coordinates] at hc
    | GeometryMultiPoint =>
      simp only [Geometry.coordinates] at hc
      subst hc
      simp [Geometry.GetBoundingBox, extendLine, checkBoundingBox_sentinel]
    | GeometryLineString =>
      simp only [Geometry.coordinates] at hc
      subst hc
      simp [Geometry.GetBoundingBox, extendLine, checkBoundingBox_sentinel]
    | GeometryMultiLineString =>
      simp only [Geometry.coordinates] at hc
      simp [Geometry.GetBoundingBox, extendLines_of_flatten_nil hc,
        checkBoundingBox_sentinel]
    | GeometryPolygon =>
      simp only [Geometry.coordinates] at hc
      simp [Geometry.GetBoundingBox, extendLines_of_flatten_nil hc,
        checkBoundingBox_sentinel]
    | GeometryMultiPolygon =>
      simp only [Geometry.coordinates] at hc
      simp [Geometry.GetBoundingBox, extendPolys_of_flatten_nil hc,
        checkBoundingBox_sentinel]
    | GeometryCollection =>
      have := Geometry.collect_of_no_coordinates ih
        (by simpa [Geometry.noOverride] using hno)
        (by simpa [Geometry.coordinates] using hc) sentinel
      simp [Geometry.GetBoundingBox, this, checkBoundingBox_sentinel]
    | unknown => simp [Geometry.GetBoundingBox, checkBoundingBox_sentinel]

/-- C7: for every Geometry tree without override anywhere that holds no
coordinate at all, `GetBoundingBox` returns ok = false with the sentinels
unchanged: min = (MaxFloat64, MaxFloat64), max = (-MaxFloat64, -MaxFloat64). -/
theorem C7_no_coordinate_invalid (g : Geometry) (hno : g.noOverride = true)
    (hc : g.coordinates = []) :
    g.GetBoundingBox = some ((F64.MaxFloat64, F64.MaxFloat64),
      (F64.neg F64.MaxFloat64, F64.neg F64.MaxFloat64), false) :=
  Geometry.bounds_of_no_coordinates g hno hc

/-- C7 at a collection nested two deep whose leaves are an empty MultiPoint,
an empty LineString and a MultiPolygon of empty lines. -/
theorem C7_no_coordinate_invalid_witness :
    (Geometry.collection [Geometry.multiPoint [],
        Geometry.collection [Geometry.lineString [], Geometry.multiPolygon [[[], []], []],
          Geometry.collection []]]).coordinates = [] ∧
    (Geometry.collection [Geometry.multiPoint [],
        Geometry.collection [Geometry.lineString [], Geometry.multiPolygon [[[], []], []],
          Geometry.collection []]]).GetBoundingBox
      = some ((F64.MaxFloat64, F64.MaxFloat64),
        (F64.neg F64.MaxFloat64, F64.neg F64.MaxFloat64), false) :=
  ⟨by decide, C7_no_coordinate_invalid _ (by decide) (by decide)⟩

/-! ### The validity flag -/

theorem overrideBounds_ok {b : List F64} {mn mx : Vec2} {ok : Bool}
    (h : overrideBounds b = some (mn, mx, ok)) : ok = checkBoundingBox mn mx := by
  unfold overrideBounds at h
  split at h
  · simp only [Option.some.injEq, Prod.mk.injEq] at h
    obtain ⟨h1, h2, h3⟩ := h
    rw [← h1, ← h2, ← h3]
  · exact absurd h (by simp)

theorem Geometry.geometry_ok_eq {g : Geometry} {mn mx : Vec2} {ok : Bool}
    (h : g.GetBoundingBox = some (mn, mx, ok)) : ok = checkBoundingBox mn mx := by
  obtain ⟨type, bbox, pt, mp, ls, mls, pg, mpg, gs⟩ := g
  cases bbox with
  | some b =>
    simp only [Geometry.GetBoundingBox] at h
    exact overrideBounds_ok h
  | none =>
    simp only [Geometry.GetBoundingBox] at h
    split at h
    · simp only [Option.some.injEq, Prod.mk.injEq] at h
      obtain ⟨h1, h2, h3⟩ := h
      rw [← h1, ← h2, ← h3]
    · exact absurd h (by simp)

theorem Feature.feature_ok_eq {f : Feature} {mn mx : Vec2} {ok : Bool}
    (h : f.GetBoundingBox = some (mn, mx, ok)) : ok = checkBoundingBox mn mx := by
  unfold Feature.GetBoundingBox at h
  split at h
  · exact overrideBounds_ok h
  · exact Geometry.geometry_ok_eq h

theorem FeatureCollection.featureCollection_ok_eq {fc : FeatureCollection} {mn mx : Vec2}
    {ok : Bool} (h : fc.GetBoundingBox = some (mn, mx, ok)) :
    ok = checkBoundingBox mn mx := by
  unfold FeatureCollection.GetBoundingBox at h
  split at h
  · exact overrideBounds_ok h
  · split at h
    · simp only [Option.some.injEq, Prod.mk.injEq] at h
      obtain ⟨h1, h2, h3⟩ := h
      rw [← h1, ← h2, ← h3]
    · exact absurd h (by simp)

theorem checkBoundingBox_iff (mn mx : Vec2) :
    checkBoundingBox mn mx = true ↔ F64.le mn.1 mx.1 = true ∧ F64.le mn.2 mx.2 = true := by
  simp [checkBoundingBox]

/-- C8: whenever `GetBoundingBox` of a Geometry, a Feature or a
FeatureCollection returns (min, max, ok), ok is true if and only if
min.x ≤ max.x and min.y ≤ max.y (Go's `<=`); the override [10,0,0,10] is
returned verbatim as min=(10,0), max=(0,10) with ok = false. -/
theorem C8_validity_flag :
    (∀ (g : Geometry) (mn mx : Vec2) (ok : Bool), g.GetBoundingBox = some (mn, mx, ok) →
      (ok = true ↔ F64.le mn.1 mx.1 = true ∧ F64.le mn.2 mx.2 = true)) ∧
    (∀ (f : Feature) (mn mx : Vec2) (ok : Bool), f.GetBoundingBox = some (mn, mx, ok) →
      (ok = true ↔ F64.le mn.1 mx.1 = true ∧ F64.le mn.2 mx.2 = true)) ∧
    (∀ (fc : FeatureCollection) (mn mx : Vec2) (ok : Bool),
      fc.GetBoundingBox = some (mn, mx, ok) →
      (ok = true ↔ F64.le mn.1 mx.1 = true ∧ F64.le mn.2 mx.2 = true)) ∧
    (∀ type pt mp ls mls pg mpg gs,
      (Geometry.mk type (some [10, 0, 0, 10]) pt mp ls mls pg mpg gs).GetBoundingBox
        = some ((10, 0), (0, 10), false)) ∧
    (∀ g : Geometry,
      (Feature.mk (some [10, 0, 0, 10]) g).GetBoundingBox = some ((10, 0), (0, 10), false)) ∧
    (∀ fs : List Feature,
      (FeatureCollection.mk (some [10, 0, 0, 10]) fs).GetBoundingBox
        = some ((10, 0), (0, 10), false)) := by
  have hc : overrideBounds [10, 0, 0, 10] = some ((10, 0), (0, 10), false) := by decide
  refine ⟨?_, ?_, ?_, ?_, ?_, ?_⟩
  · intro g mn mx ok h
    rw [Geometry.geometry_ok_eq h]; exact checkBoundingBox_iff mn mx
  · intro f mn mx ok h
    rw [Feature.feature_ok_eq h]; exact checkBoundingBox_iff mn mx
  · intro fc mn mx ok h
    rw [FeatureCollection.featureCollection_ok_eq h]; exact checkBoundingBox_iff mn mx
  · intros; simp only [Geometry.GetBoundingBox]; exact hc
  · intros; simp only [Feature.GetBoundingBox]; exact hc
  · intros; simp only [FeatureCollection.GetBoundingBox]; exact hc

/-- C8 at the collection of an empty MultiPoint and Point(3,4), which returns
min=(3,4), max=(3,4), ok=true. -/
theorem C8_validity_flag_witness :
    (Geometry.collection [Geometry.multiPoint [], Geometry.point ⟨3, 4⟩]).GetBoundingBox
      = some ((3, 4), (3, 4), true) ∧
    (true = true ↔ F64.le (3 : F64) 3 = true ∧ F64.le (4 : F64) 4 = true) :=
  ⟨by decide,
    C8_validity_flag.1 (Geometry.collection [Geometry.multiPoint [], Geometry.point ⟨3, 4⟩])
      (3, 4) (3, 4) true (by decide)⟩

/-- C9: a Feature without override returns exactly what `GetBoundingBox`
returns for its geometry (that geometry's own override included). -/
theorem C9_feature_delegates (f : Feature) (h : f.BoundingBox = none) :
    f.GetBoundingBox = f.Geometry.GetBoundingBox := by
  unfold Feature.GetBoundingBox
  rw [h]

/-- C9 at a feature without override whose geometry is the Point (5,5) with
the override [0,0,1,1]: both return min=(0,0), max=(1,1), ok=true. -/
theorem C9_feature_delegates_witness :
    (Feature.mk none
        (Geometry.mk .GeometryPoint (some [0, 0, 1, 1]) ⟨5, 5⟩ [] [] [] [] [] [])).GetBoundingBox
      = (Geometry.mk .GeometryPoint (some [0, 0, 1, 1]) ⟨5, 5⟩ [] [] [] [] [] []).GetBoundingBox ∧
    (Geometry.mk .GeometryPoint (some [0, 0, 1, 1]) ⟨5, 5⟩ [] [] [] [] [] []).GetBoundingBox
      = some ((0, 0), (1, 1), true) :=
  ⟨C9_feature_delegates _ rfl, by decide⟩

/-! ### The decoder -/

theorem decodeElements_error_iff (vs : List Value) :
    ∀ bb, (∃ e, decodeElements vs bb = .error e) ↔ ∃ v ∈ vs, ∀ x, v ≠ Value.float64 x := by
  induction vs with
  | nil => intro bb; simp [decodeElements]
  | cons v vs ih =>
    intro bb
    cases v with
    | float64 c =>
      simp only [decodeElements, ih, List.mem_cons, exists_eq_or_imp]
      constructor
      · intro h; exact Or.inr h
      · rintro (h | h)
        · exact absurd rfl (h c)
        · exact h
    | nil => simp [decodeElements]
    | float64Slice xs => simp [decodeElements]
    | ifaceSlice ws => simp [decodeElements]
    | string s => simp [decodeElements]
    | int n => simp [decodeElements]
    | bool b => simp [decodeElements]
    | object kvs => simp [decodeElements]

theorem decodeBoundingBox_error_iff (v : Value) :
    (∃ e, decodeBoundingBox v = .error e) ↔
      (v ≠ Value.nil ∧ (∀ xs, v ≠ Value.float64Slice xs) ∧
        (v.hasNonFloatElement ∨ v.isOtherShape)) := by
  cases v with
  | nil => simp [decodeBoundingBox]
  | float64Slice xs => simp [decodeBoundingBox]
  | ifaceSlice ws =>
    have h := decodeElements_error_iff ws []
    simp only [decodeBoundingBox, Value.hasNonFloatElement, Value.isOtherShape, or_false,
      ne_eq, not_false_eq_true, true_and, reduceCtorEq, implies_true]
    rw [← h]
    cases decodeElements ws [] with
    | ok bb => simp
    | error e => simp
  | float64 x => simp [decodeBoundingBox, Value.hasNonFloatElement, Value.isOtherShape]
  | string s => simp [decodeBoundingBox, Value.hasNonFloatElement, Value.isOtherShape]
  | int n => simp [decodeBoundingBox, Value.hasNonFloatElement, Value.isOtherShape]
  | bool b => simp [decodeBoundingBox, Value.hasNonFloatElement, Value.isOtherShape]
  | object kvs => simp [decodeBoundingBox, Value.hasNonFloatElement, Value.isOtherShape]

/-- C10: `decodeBoundingBox` fails if and only if the raw value is not absent,
not a `[]float64`, and is either a `[]interface{}` with an element that is not
a float64 or a value of another shape; on every other input it succeeds.
`decode(nil)` and `decode([1,2,3,4])` succeed, `decode(["a",2,3,4])` and
`decode(42)` fail. -/
theorem C10_decode_fails_iff :
    (∀ v : Value, (∃ e, decodeBoundingBox v = .error e) ↔
      (v ≠ Value.nil ∧ (∀ xs, v ≠ Value.float64Slice xs) ∧
        (v.hasNonFloatElement ∨ v.isOtherShape))) ∧
    (∀ v : Value,
      ¬ (v ≠ Value.nil ∧ (∀ xs, v ≠ Value.float64Slice xs) ∧
        (v.hasNonFloatElement ∨ v.isOtherShape)) →
      ∃ r, decodeBoundingBox v = .ok r) ∧
    decodeBoundingBox .nil = .ok none ∧
    decodeBoundingBox (.float64Slice (some [1, 2, 3, 4])) = .ok (some [1, 2, 3, 4]) ∧
    decodeBoundingBox (.ifaceSlice [.float64 1, .float64 2, .float64 3, .float64 4])
      = .ok (some [1, 2, 3, 4]) ∧
    decodeBoundingBox (.ifaceSlice [.string "a", .float64 2, .float64 3, .float64 4])
      = .error "bounding box coordinate not usable, got string" ∧
    decodeBoundingBox (.int 42) = .error "bounding box property not usable, got int" := by
  refine ⟨decodeBoundingBox_error_iff, ?_, rfl, rfl, rfl, rfl, rfl⟩
  intro v hv
  cases h : decodeBoundingBox v with
  | ok r => exact ⟨r, rfl⟩
  | error e => exact absurd ((decodeBoundingBox_error_iff v).1 ⟨e, h⟩) hv

/-- C10 at the raw value `[]interface{}{1.0, nil}`: it is not absent, not a
`[]float64`, and has the element nil that is not a float64, so decoding
fails. -/
theorem C10_decode_fails_iff_witness :
    ∃ e, decodeBoundingBox (.ifaceSlice [.float64 1, .nil]) = .error e :=
  (C10_decode_fails_iff.1 (.ifaceSlice [.float64 1, .nil])).2
    ⟨by simp, by simp, Or.inl ⟨.nil, by simp, by simp⟩⟩

theorem decodeElements_map_float64 (xs : List F64) :
    ∀ bb, decodeElements (xs.map Value.float64) bb = .ok (bb ++ xs) := by
  induction xs with
  | nil => intro bb; simp [decodeElements]
  | cons x xs ih => intro bb; simp [decodeElements, ih]

theorem decodeElements_ok {vs : List Value} :
    ∀ {bb r : List F64}, decodeElements vs bb = .ok r →
      ∃ xs, vs = xs.map Value.float64 ∧ r = bb ++ xs := by
  induction vs with
  | nil =>
    intro bb r h
    simp only [decodeElements, Except.ok.injEq] at h
    exact ⟨[], rfl, by simp [h]⟩
  | cons v vs ih =>
    intro bb r h
    cases v with
    | float64 c =>
      simp only [decodeElements] at h
      obtain ⟨xs, h1, h2⟩ := ih h
      exact ⟨c :: xs, by simp [h1], by simp [h2]⟩
    | nil => simp [decodeElements] at h
    | float64Slice xs => simp [decodeElements] at h
    | ifaceSlice ws => simp [decodeElements] at h
    | string s => simp [decodeElements] at h
    | int n => simp [decodeElements] at h
    | bool b => simp [decodeElements] at h
    | object kvs => simp [decodeElements] at h

/-- C11: `decodeBoundingBox` passes the values through unchanged: decoding
the `[]float64` xs returns xs, and decoding the `[]interface{}` whose elements
are the values of xs returns the same values in the same order, for every xs
of any length. -/
theorem C11_decode_passes_through :
    (∀ xs : List F64, decodeBoundingBox (.float64Slice (some xs)) = .ok (some xs)) ∧
    (∀ xs : List F64,
      decodeBoundingBox (.ifaceSlice (xs.map Value.float64)) = .ok (some xs)) ∧
    decodeBoundingBox (.float64Slice (some [1, 2, 3, 4])) = .ok (some [1, 2, 3, 4]) := by
  refine ⟨fun xs => rfl, ?_, rfl⟩
  intro xs
  simp [decodeBoundingBox, decodeElements_map_float64]

/-- C12, as stated, fails on the code: no length is checked, so a
`[]float64` of two values is decoded to two values, an empty `[]interface{}`
to a present result of zero values, and five numbers to five values. -/
theorem C12_counterexample :
    decodeBoundingBox (.float64Slice (some [1, 2])) = .ok (some [1, 2]) ∧
    decodeBoundingBox (.ifaceSlice []) = .ok (some []) ∧
    decodeBoundingBox
        (.ifaceSlice [.float64 1, .float64 2, .float64 3, .float64 4, .float64 5])
      = .ok (some [1, 2, 3, 4, 5]) ∧
    ([1, 2] : List F64).length ≠ 4 ∧ ([] : List F64).length ≠ 4 ∧
    ([1, 2, 3, 4, 5] : List F64).length ≠ 4 :=
  ⟨rfl, rfl, rfl, by decide, by decide, by decide⟩

/-- C12 (amended): for every raw value on which `decodeBoundingBox` succeeds
with a present result, the result holds exactly the values of the raw sequence
in their order, so it has as many elements as the raw sequence: 4 numbers
[minX, minY, maxX, maxY] exactly when the raw sequence has 4. -/
theorem C12_decoded_is_raw_sequence (v : Value) (r : List F64)
    (h : decodeBoundingBox v = .ok (some r)) :
    v = .float64Slice (some r) ∨ v = .ifaceSlice (r.map Value.float64) := by
  cases v with
  | nil => simp [decodeBoundingBox] at h
  | float64Slice xs =>
    simp only [decodeBoundingBox, Except.ok.injEq] at h
    exact Or.inl (by rw [h])
  | ifaceSlice ws =>
    simp only [decodeBoundingBox] at h
    cases hd : decodeElements ws [] with
    | error e => rw [hd] at h; simp at h
    | ok bb =>
      rw [hd] at h
      simp only [Except.ok.injEq, Option.some.injEq] at h
      obtain ⟨xs, h1, h2⟩ := decodeElements_ok hd
      simp only [List.nil_append] at h2
      exact Or.inr (by rw [h1, ← h, h2])
  | float64 x => simp [decodeBoundingBox] at h
  | string s => simp [decodeBoundingBox] at h
  | int n => simp [decodeBoundingBox] at h
  | bool b => simp [decodeBoundingBox] at h
  | object kvs => simp [decodeBoundingBox] at h

/-- C12 (amended) at the raw `[]interface{}` of the two numbers 1 and 2. -/
theorem C12_decoded_is_raw_sequence_witness :
    decodeBoundingBox (.ifaceSlice [.float64 1, .float64 2]) = .ok (some [1, 2]) ∧
    ((Value.ifaceSlice [.float64 1, .float64 2] = .float64Slice (some [1, 2])) ∨
      (Value.ifaceSlice [.float64 1, .float64 2]
        = .ifaceSlice (([1, 2] : List F64).map Value.float64))) :=
  ⟨rfl, C12_decoded_is_raw_sequence _ _ rfl⟩

/-- C13: decoding the absent (nil) raw value succeeds with no override and no
error; decoding an empty sequence of untyped elements succeeds with a present
override of zero values; the two results are distinct. -/
theorem C13_nil_is_not_empty :
    decodeBoundingBox .nil = .ok none ∧
    decodeBoundingBox (.ifaceSlice []) = .ok (some []) ∧
    decodeBoundingBox .nil ≠ decodeBoundingBox (.ifaceSlice []) := by
  refine ⟨rfl, rfl, ?_⟩
  intro h
  have h1 : (Except.ok none : Except String (Option (List F64))) = .ok (some []) := h
  simp at h1

theorem decodeElements_first_bad (pre : List F64) (v : Value) (rest : List Value)
    (hv : ∀ x, v ≠ Value.float64 x) :
    ∀ bb, decodeElements (pre.map Value.float64 ++ v :: rest) bb
      = .error ("bounding box coordinate not usable, got " ++ v.typeName) := by
  induction pre with
  | nil =>
    intro bb
    cases v with
    | float64 c => exact absurd rfl (hv c)
    | nil => simp [decodeElements]
    | float64Slice xs => simp [decodeElements]
    | ifaceSlice ws => simp [decodeElements]
    | string s => simp [decodeElements]
    | int n => simp [decodeElements]
    | bool b => simp [decodeElements]
    | object kvs => simp [decodeElements]
  | cons x pre ih => intro bb; simp [decodeElements, ih]

theorem coordinate_message_ne_property_message (a b : String) :
    "bounding box coordinate not usable, got " ++ a
      ≠ "bounding box property not usable, got " ++ b := by
  intro h
  have h1 := congrArg (fun s => s.data.take 14) h
  simp only [String.data_append] at h1
  rw [List.take_append_of_le_length (by decide),
    List.take_append_of_le_length (by decide)] at h1
  revert h1
  decide

/-- C15: when `decodeBoundingBox` fails on a sequence of untyped elements,
the error is the element-level error "bounding box coordinate not usable"
naming the type of the first element that is not a float64; a raw value of
another shape gets the error "bounding box property not usable" naming the type
of the whole value; the two errors are distinct, and an error comes with no
result array. -/
theorem C15_decode_error_names_type :
    (∀ (pre : List F64) (v : Value) (rest : List Value), (∀ x, v ≠ Value.float64 x) →
      decodeBoundingBox (.ifaceSlice (pre.map Value.float64 ++ v :: rest))
        = .error ("bounding box coordinate not usable, got " ++ v.typeName)) ∧
    (∀ v : Value, v.isOtherShape →
      decodeBoundingBox v = .error ("bounding box property not usable, got " ++ v.typeName)) ∧
    (∀ a b : String,
      "bounding box coordinate not usable, got " ++ a
        ≠ "bounding box property not usable, got " ++ b) ∧
    decodeBoundingBox (.ifaceSlice [.float64 1, .string "a", .bool true])
      = .error "bounding box coordinate not usable, got string" ∧
    decodeBoundingBox (.int 42) = .error "bounding box property not usable, got int" := by
  refine ⟨?_, ?_, coordinate_message_ne_property_message, rfl, rfl⟩
  · intro pre v rest hv
    simp [decodeBoundingBox, decodeElements_first_bad pre v rest hv]
  · intro v hv
    cases v with
    | nil => exact absurd hv (by simp [Value.isOtherShape])
    | float64Slice xs => exact absurd hv (by simp [Value.isOtherShape])
    | ifaceSlice ws => exact absurd hv (by simp [Value.isOtherShape])
    | float64 x => rfl
    | string s => rfl
    | int n => rfl
    | bool b => rfl
    | object kvs => rfl

/-- C15 at the raw value `[]interface{}{1.0, 2.0, nil, "a"}`: the first
element that is not a float64 is the nil at index 2. -/
theorem C15_decode_error_names_type_witness :
    decodeBoundingBox
        (.ifaceSlice (([1, 2] : List F64).map Value.float64 ++ .nil :: [.string "a"]))
      = .error ("bounding box coordinate not usable, got " ++ Value.nil.typeName) :=
  C15_decode_error_names_type.1 [1, 2] .nil [.string "a"] (by simp)

/-! ### Override length -/

theorem overrideBounds_of_four (b0 b1 b2 b3 : F64) (rest : List F64) :
    overrideBounds (b0 :: b1 :: b2 :: b3 :: rest)
      = some ((b0, b1), (b2, b3), checkBoundingBox (b0, b1) (b2, b3)) := by
  simp [overrideBounds]

theorem overrideBounds_of_short {b : List F64} (h : b.length < 4) :
    overrideBounds b = none := by
  have h1 := overrideBounds_isSome b
  have h2 : decide (4 ≤ b.length) = false := by simp; omega
  rw [h2] at h1
  cases h3 : overrideBounds b with
  | none => rfl
  | some t => rw [h3] at h1; simp at h1

/-- C14: in each of the three `GetBoundingBox` methods a present override of
at least 4 values gives min=(b[0],b[1]), max=(b[2],b[3]) whatever the values
at index 4 and later are, and a present override of fewer than 4 values (zero
values included) makes the call panic with an index out of range instead of
returning a result. -/
theorem C14_override_length :
    (∀ (b0 b1 b2 b3 : F64) (rest : List F64) type pt mp ls mls pg mpg gs,
      (Geometry.mk type (some (b0 :: b1 :: b2 :: b3 :: rest)) pt mp ls mls pg mpg
          gs).GetBoundingBox
        = some ((b0, b1), (b2, b3), checkBoundingBox (b0, b1) (b2, b3))) ∧
    (∀ (b0 b1 b2 b3 : F64) (rest : List F64) (g : Geometry),
      (Feature.mk (some (b0 :: b1 :: b2 :: b3 :: rest)) g).GetBoundingBox
        = some ((b0, b1), (b2, b3), checkBoundingBox (b0, b1) (b2, b3))) ∧
    (∀ (b0 b1 b2 b3 : F64) (rest : List F64) (fs : List Feature),
      (FeatureCollection.mk (some (b0 :: b1 :: b2 :: b3 :: rest)) fs).GetBoundingBox
        = some ((b0, b1), (b2, b3), checkBoundingBox (b0, b1) (b2, b3))) ∧
    (∀ (b : List F64), b.length < 4 → ∀ type pt mp ls mls pg mpg gs,
      (Geometry.mk type (some b) pt mp ls mls pg mpg gs).GetBoundingBox = none) ∧
    (∀ (b : List F64), b.length < 4 → ∀ g : Geometry,
      (Feature.mk (some b) g).GetBoundingBox = none) ∧
    (∀ (b : List F64), b.length < 4 → ∀ fs : List Feature,
      (FeatureCollection.mk (some b) fs).GetBoundingBox = none) := by
  refine ⟨?_, ?_, ?_, ?_, ?_, ?_⟩
  · intros; simp only [Geometry.GetBoundingBox]; exact overrideBounds_of_four _ _ _ _ _
  · intros; simp only [Feature.GetBoundingBox]; exact overrideBounds_of_four _ _ _ _ _
  · intros; simp only [FeatureCollection.GetBoundingBox]; exact overrideBounds_of_four _ _ _ _ _
  · intro b hb; intros; simp only [Geometry.GetBoundingBox]; exact overrideBounds_of_short hb
  · intro b hb; intros; simp only [Feature.GetBoundingBox]; exact overrideBounds_of_short hb
  · intro b hb; intros
    simp only [FeatureCollection.GetBoundingBox]; exact overrideBounds_of_short hb

/-- C14 at the Point (5,5) with the override [1,2,3] of three values. -/
theorem C14_override_length_witness :
    ([1, 2, 3] : List F64).length < 4 ∧
    (Geometry.mk .GeometryPoint (some [1, 2, 3]) ⟨5, 5⟩ [] [] [] [] [] []).GetBoundingBox
      = none :=
  ⟨by decide, C14_override_length.2.2.2.1 [1, 2, 3] (by decide) _ _ _ _ _ _ _ _⟩

/-! ### Order of the children -/

namespace F64

theorem Min_right_comm {a x y : F64} (ha : a.IsNaN = false) (hx : x.IsNaN = false)
    (hy : y.IsNaN = false) : Min (Min a x) y = Min (Min a y) x := by
  rw [Min_eq_ite (Min_isNaN ha hx) hy, Min_eq_ite (Min_isNaN ha hy) hx,
    Min_eq_ite ha hx, Min_eq_ite ha hy]
  by_cases h1 : a.tOrd ≤ x.tOrd <;> by_cases h2 : a.tOrd ≤ y.tOrd <;>
    by_cases h3 : x.tOrd ≤ y.tOrd <;> by_cases h4 : y.tOrd ≤ x.tOrd <;>
    simp only [h1, h2, h3, h4, if_true, if_false] <;>
    first
      | rfl
      | omega
      | exact tOrd_inj (by omega)

theorem Max_right_comm {a x y : F64} (ha : a.IsNaN = false) (hx : x.IsNaN = false)
    (hy : y.IsNaN = false) : Max (Max a x) y = Max (Max a y) x := by
  rw [Max_eq_ite (Max_isNaN ha hx) hy, Max_eq_ite (Max_isNaN ha hy) hx,
    Max_eq_ite ha hx, Max_eq_ite ha hy]
  by_cases h1 : a.tOrd ≤ x.tOrd <;> by_cases h2 : a.tOrd ≤ y.tOrd <;>
    by_cases h3 : x.tOrd ≤ y.tOrd <;> by_cases h4 : y.tOrd ≤ x.tOrd <;>
    simp only [h1, h2, h3, h4, if_true, if_false] <;>
    first
      | rfl
      | omega
      | exact tOrd_inj (by omega)

end F64

/-- The corners of a box that passes `checkBoundingBox` are not NaN. -/
theorem notNaN_of_check {mn mx : Vec2} (h : checkBoundingBox mn mx = true) :
    NotNaNAcc (mn, mx) := by
  simp only [checkBoundingBox, Bool.and_eq_true] at h
  exact ⟨F64.isNaN_of_le_left h.1, F64.isNaN_of_le_left h.2,
    F64.isNaN_of_le_right h.1, F64.isNaN_of_le_right h.2⟩

/-- Folding a result whose flag is `checkBoundingBox` of its corners keeps
the accumulators free of NaN. -/
theorem notNaN_merge {acc : Vec2 × Vec2} {t : Bounds} (h : NotNaNAcc acc)
    (ht : t.2.2 = checkBoundingBox t.1 t.2.1) : NotNaNAcc (merge acc t) := by
  obtain ⟨mn, mx, ok⟩ := t
  simp only at ht
  cases ok with
  | false => simpa [merge] using h
  | true =>
    obtain ⟨b1, b2, b3, b4⟩ := notNaN_of_check ht.symm
    obtain ⟨a1, a2, a3, a4⟩ := h
    simp only [merge, if_true]
    exact ⟨F64.Min_isNaN a1 b1, F64.Min_isNaN a2 b2, F64.Max_isNaN a3 b3,
      F64.Max_isNaN a4 b4⟩

/-- Two results can be folded in either order. -/
theorem merge_right_comm {acc : Vec2 × Vec2} {t u : Bounds} (h : NotNaNAcc acc)
    (ht : t.2.2 = checkBoundingBox t.1 t.2.1) (hu : u.2.2 = checkBoundingBox u.1 u.2.1) :
    merge (merge acc t) u = merge (merge acc u) t := by
  obtain ⟨mn, mx, ok⟩ := t
  obtain ⟨mn2, mx2, ok2⟩ := u
  simp only at ht hu
  cases ok <;> cases ok2
  · simp [merge]
  · simp [merge]
  · simp [merge]
  · obtain ⟨b1, b2, b3, b4⟩ := notNaN_of_check ht.symm
    obtain ⟨c1, c2, c3, c4⟩ := notNaN_of_check hu.symm
    obtain ⟨a1, a2, a3, a4⟩ := h
    simp only [merge, if_true]
    rw [F64.Min_right_comm a1 b1 c1, F64.Min_right_comm a2 b2 c2,
      F64.Max_right_comm a3 b3 c3, F64.Max_right_comm a4 b4 c4]

theorem notNaN_sentinel : NotNaNAcc sentinel := accInv_sentinel.1

theorem Geometry.collect_perm {gs gs2 : List Geometry} (hp : gs.Perm gs2) :
    ∀ acc, NotNaNAcc acc → Geometry.collect gs acc = Geometry.collect gs2 acc := by
  induction hp with
  | nil => intro acc _; rfl
  | cons g _ ih =>
    intro acc ha
    simp only [Geometry.collect]
    cases hg : g.GetBoundingBox with
    | none => rfl
    | some t =>
      obtain ⟨mn, mx, ok⟩ := t
      exact ih _ (notNaN_merge ha (Geometry.geometry_ok_eq hg))
  | swap g g2 l =>
    intro acc ha
    simp only [Geometry.collect]
    cases hg : g.GetBoundingBox with
    | none => cases g2.GetBoundingBox <;> rfl
    | some t =>
      cases hg2 : g2.GetBoundingBox with
      | none => rfl
      | some u =>
        obtain ⟨mn, mx, ok⟩ := t
        obtain ⟨mn2, mx2, ok2⟩ := u
        simp only
        rw [merge_right_comm ha (Geometry.geometry_ok_eq hg2) (Geometry.geometry_ok_eq hg)]
  | trans _ _ ih1 ih2 =>
    intro acc ha
    rw [ih1 acc ha, ih2 acc ha]

theorem FeatureCollection.collectFeatures_perm {fs fs2 : List Feature} (hp : fs.Perm fs2) :
    ∀ acc, NotNaNAcc acc →
      FeatureCollection.collect fs acc = FeatureCollection.collect fs2 acc := by
  induction hp with
  | nil => intro acc _; rfl
  | cons f _ ih =>
    intro acc ha
    simp only [FeatureCollection.collect]
    cases hf : f.GetBoundingBox with
    | none => rfl
    | some t =>
      obtain ⟨mn, mx, ok⟩ := t
      exact ih _ (notNaN_merge ha (Feature.feature_ok_eq hf))
  | swap f f2 l =>
    intro acc ha
    simp only [FeatureCollection.collect]
    cases hf : f.GetBoundingBox with
    | none => cases f2.GetBoundingBox <;> rfl
    | some t =>
      cases hf2 : f2.GetBoundingBox with
      | none => rfl
      | some u =>
        obtain ⟨mn, mx, ok⟩ := t
        obtain ⟨mn2, mx2, ok2⟩ := u
        simp only
        rw [merge_right_comm ha (Feature.feature_ok_eq hf2) (Feature.feature_ok_eq hf)]
  | trans _ _ ih1 ih2 =>
    intro acc ha
    rw [ih1 acc ha, ih2 acc ha]

/-- C17: `GetBoundingBox` of a GeometryCollection without override returns
the same result for every permutation of its children, and `GetBoundingBox`
of a FeatureCollection without override returns the same result for every
permutation of its features (NaN values included). -/
theorem C17_order_independence :
    (∀ pt mp ls mls pg mpg (gs gs2 : List Geometry), gs.Perm gs2 →
      (Geometry.mk .GeometryCollection none pt mp ls mls pg mpg gs).GetBoundingBox
        = (Geometry.mk .GeometryCollection none pt mp ls mls pg mpg gs2).GetBoundingBox) ∧
    (∀ fs fs2 : List Feature, fs.Perm fs2 →
      (FeatureCollection.mk none fs).GetBoundingBox
        = (FeatureCollection.mk none fs2).GetBoundingBox) := by
  constructor
  · intro pt mp ls mls pg mpg gs gs2 hp
    simp only [Geometry.GetBoundingBox]
    rw [Geometry.collect_perm hp sentinel notNaN_sentinel]
  · intro fs fs2 hp
    simp only [FeatureCollection.GetBoundingBox]
    rw [FeatureCollection.collectFeatures_perm hp sentinel notNaN_sentinel]

/-- C17 at the children Point(5,5), Point(1,1) and the same two swapped:
both orders return min=(1,1), max=(5,5), ok=true. -/
theorem C17_order_independence_witness :
    (Geometry.collection [Geometry.point ⟨5, 5⟩, Geometry.point ⟨1, 1⟩]).GetBoundingBox
      = (Geometry.collection [Geometry.point ⟨1, 1⟩, Geometry.point ⟨5, 5⟩]).GetBoundingBox ∧
    (Geometry.collection [Geometry.point ⟨1, 1⟩, Geometry.point ⟨5, 5⟩]).GetBoundingBox
      = some ((1, 1), (5, 5), true) :=
  ⟨C17_order_independence.1 _ _ _ _ _ _ _ _
    (List.Perm.swap (Geometry.point ⟨1, 1⟩) (Geometry.point ⟨5, 5⟩) []), by decide⟩

/-! ### Validity of a collection -/

/-- Folding a valid box into accumulators without NaN gives a valid box. -/
theorem check_merge_valid {acc : Vec2 × Vec2} {mn mx : Vec2} (h : NotNaNAcc acc)
    (hc : checkBoundingBox mn mx = true) :
    checkBoundingBox (merge acc (mn, mx, true)).1 (merge acc (mn, mx, true)).2 = true := by
  obtain ⟨b1, b2, b3, b4⟩ := notNaN_of_check hc
  obtain ⟨a1, a2, a3, a4⟩ := h
  simp only [checkBoundingBox, Bool.and_eq_true] at hc
  simp only [merge, if_true, checkBoundingBox, Bool.and_eq_true]
  exact ⟨F64.le_trans (F64.le_trans (F64.Min_le_right a1 b1) hc.1) (F64.le_Max_right a3 b3),
    F64.le_trans (F64.le_trans (F64.Min_le_right a2 b2) hc.2) (F64.le_Max_right a4 b4)⟩

/-- Valid accumulators stay valid when results are folded in. -/
theorem check_foldl_merge_of_valid (rs : List Bounds)
    (h : ∀ t ∈ rs, t.2.2 = checkBoundingBox t.1 t.2.1) :
    ∀ acc, NotNaNAcc acc → checkBoundingBox acc.1 acc.2 = true →
      checkBoundingBox (rs.foldl merge acc).1 (rs.foldl merge acc).2 = true := by
  induction rs with
  | nil => intro acc _ hv; simpa using hv
  | cons t rs ih =>
    intro acc ha hv
    have ht := h t (by simp)
    have hrs : ∀ u ∈ rs, u.2.2 = checkBoundingBox u.1 u.2.1 :=
      fun u hu => h u (List.mem_cons_of_mem _ hu)
    simp only [List.foldl_cons]
    apply ih hrs _ (notNaN_merge ha ht)
    obtain ⟨mn, mx, ok⟩ := t
    simp only at ht
    cases ok with
    | false => simpa [merge] using hv
    | true => exact check_merge_valid ha ht.symm

/-- The box folded from a list of results into invalid accumulators is valid
exactly when one of the results is. -/
theorem check_foldl_merge (rs : List Bounds)
    (h : ∀ t ∈ rs, t.2.2 = checkBoundingBox t.1 t.2.1) :
    ∀ acc, NotNaNAcc acc → checkBoundingBox acc.1 acc.2 = false →
      checkBoundingBox (rs.foldl merge acc).1 (rs.foldl merge acc).2
        = rs.any (fun t => t.2.2) := by
  induction rs with
  | nil => intro acc _ hf; simpa using hf
  | cons t rs ih =>
    intro acc ha hf
    have ht := h t (by simp)
    have hrs : ∀ u ∈ rs, u.2.2 = checkBoundingBox u.1 u.2.1 :=
      fun u hu => h u (List.mem_cons_of_mem _ hu)
    obtain ⟨mn, mx, ok⟩ := t
    simp only at ht
    cases ok with
    | false =>
      simp only [List.foldl_cons, List.any_cons, Bool.false_or]
      have hm : merge acc (mn, mx, false) = acc := by simp [merge]
      rw [hm]
      exact ih hrs acc ha hf
    | true =>
      simp only [List.foldl_cons, List.any_cons, Bool.true_or]
      exact check_foldl_merge_of_valid rs hrs _ (notNaN_merge ha ht)
        (check_merge_valid ha ht.symm)

theorem reportsValid_iff (r : Option Bounds) :
    reportsValid r = true ↔ ∃ mn mx, r = some (mn, mx, true) := by
  cases r with
  | none => simp [reportsValid]
  | some t =>
    obtain ⟨mn, mx, ok⟩ := t
    cases ok <;> simp [reportsValid]

theorem Geometry.collect_eq_foldl_results (gs : List Geometry)
    (h : ∀ g ∈ gs, g.GetBoundingBox ≠ none) :
    ∀ acc, Geometry.collect gs acc
      = some ((gs.filterMap Geometry.GetBoundingBox).foldl merge acc) := by
  induction gs with
  | nil => intro acc; rfl
  | cons g gs ih =>
    intro acc
    have ih2 := ih (fun g2 hg2 => h g2 (List.mem_cons_of_mem _ hg2))
    cases hg : g.GetBoundingBox with
    | none => exact absurd hg (h g (by simp))
    | some t => simp [Geometry.collect, hg, List.filterMap_cons, ih2]

theorem Geometry.collect_returns {gs : List Geometry} :
    ∀ {acc a : Vec2 × Vec2}, Geometry.collect gs acc = some a →
      ∀ g ∈ gs, g.GetBoundingBox ≠ none := by
  induction gs with
  | nil => intro _ _ _ g hg; simp at hg
  | cons g0 gs ih =>
    intro acc a h g hg
    simp only [Geometry.collect] at h
    cases h0 : g0.GetBoundingBox with
    | none => rw [h0] at h; simp at h
    | some t =>
      rw [h0] at h
      rcases List.mem_cons.1 hg with e | e
      · rw [e, h0]; simp
      · exact ih h g e

theorem FeatureCollection.collectFeatures_returns {fs : List Feature} :
    ∀ {acc a : Vec2 × Vec2}, FeatureCollection.collect fs acc = some a →
      ∀ f ∈ fs, f.GetBoundingBox ≠ none := by
  induction fs with
  | nil => intro _ _ _ f hf; simp at hf
  | cons f0 fs ih =>
    intro acc a h f hf
    simp only [FeatureCollection.collect] at h
    cases h0 : f0.GetBoundingBox with
    | none => rw [h0] at h; simp at h
    | some t =>
      rw [h0] at h
      rcases List.mem_cons.1 hf with e | e
      · rw [e, h0]; simp
      · exact ih h f e

/-- The validity of the box folded from the results of calls that all return,
in terms of the calls. -/
theorem any_valid_iff {α : Type} (call : α → Option Bounds) (xs : List α) :
    (xs.filterMap call).any (fun t => t.2.2) = true ↔
      ∃ x ∈ xs, reportsValid (call x) = true := by
  simp only [List.any_eq_true, List.mem_filterMap]
  constructor
  · rintro ⟨t, ⟨x, hx, hxt⟩, ht⟩
    obtain ⟨mn, mx, ok⟩ := t
    simp only at ht
    subst ht
    exact ⟨x, hx, by rw [hxt]; rfl⟩
  · rintro ⟨x, hx, hv⟩
    obtain ⟨mn, mx, hr⟩ := (reportsValid_iff _).1 hv
    exact ⟨(mn, mx, true), ⟨x, hx, hr⟩, rfl⟩

theorem Geometry.collection_valid_iff (pt : Coordinate) (mp ls : List Coordinate)
    (mls pg : List (List Coordinate)) (mpg : List (List (List Coordinate)))
    (gs : List Geometry) (h : ∀ g ∈ gs, g.GetBoundingBox ≠ none) :
    reportsValid (Geometry.mk .GeometryCollection none pt mp ls mls pg mpg gs).GetBoundingBox
        = true ↔ ∃ g ∈ gs, reportsValid g.GetBoundingBox = true := by
  rw [← any_valid_iff Geometry.GetBoundingBox gs]
  have hrs : ∀ t ∈ gs.filterMap Geometry.GetBoundingBox,
      t.2.2 = checkBoundingBox t.1 t.2.1 := by
    intro t ht
    obtain ⟨g, _, hg⟩ := List.mem_filterMap.1 ht
    exact Geometry.geometry_ok_eq hg
  have hc := check_foldl_merge _ hrs sentinel notNaN_sentinel checkBoundingBox_sentinel
  simp only [Geometry.GetBoundingBox, Geometry.collect_eq_foldl_results gs h sentinel]
  rw [← hc]
  cases hb : checkBoundingBox
      (List.foldl merge sentinel (gs.filterMap Geometry.GetBoundingBox)).1
      (List.foldl merge sentinel (gs.filterMap Geometry.GetBoundingBox)).2 <;>
    simp [reportsValid]

theorem FeatureCollection.featureCollection_valid_iff (fs : List Feature)
    (h : ∀ f ∈ fs, f.GetBoundingBox ≠ none) :
    reportsValid (FeatureCollection.mk none fs).GetBoundingBox = true ↔
      ∃ f ∈ fs, reportsValid f.GetBoundingBox = true := by
  rw [← any_valid_iff Feature.GetBoundingBox fs]
  have hrs : ∀ t ∈ fs.filterMap Feature.GetBoundingBox,
      t.2.2 = checkBoundingBox t.1 t.2.1 := by
    intro t ht
    obtain ⟨f, _, hf⟩ := List.mem_filterMap.1 ht
    exact Feature.feature_ok_eq hf
  have hc := check_foldl_merge _ hrs sentinel notNaN_sentinel checkBoundingBox_sentinel
  simp only [FeatureCollection.GetBoundingBox,
    FeatureCollection.collect_eq_foldl fs h sentinel]
  rw [← hc]
  cases hb : checkBoundingBox
      (List.foldl merge sentinel (fs.filterMap Feature.GetBoundingBox)).1
      (List.foldl merge sentinel (fs.filterMap Feature.GetBoundingBox)).2 <;>
    simp [reportsValid]

/-- C16, as stated, fails on the code: when a child (or feature) call panics
on an override of fewer than 4 values, the collection call returns no result,
so it does not return ok = true although the child Point(1,1) does. -/
theorem C16_counterexample :
    reportsValid (Geometry.point ⟨1, 1⟩).GetBoundingBox = true ∧
    (Geometry.collection [Geometry.point ⟨1, 1⟩,
        Geometry.mk .GeometryPoint (some []) ⟨5, 5⟩ [] [] [] [] [] []]).GetBoundingBox
      = none ∧
    reportsValid (Feature.mk none (Geometry.point ⟨1, 1⟩)).GetBoundingBox = true ∧
    (FeatureCollection.mk none
        [⟨none, Geometry.point ⟨1, 1⟩⟩, ⟨some [], Geometry.point ⟨5, 5⟩⟩]).GetBoundingBox
      = none := by
  decide

/-- C16 (amended): for every GeometryCollection without override, if
`GetBoundingBox` returns ok = true then at least one child's `GetBoundingBox`
returns ok = true, and if every child call returns a result and at least one
returns ok = true then `GetBoundingBox` returns ok = true; the same holds for
a FeatureCollection without override and its features. -/
theorem C16_collection_valid_iff_child_valid :
    (∀ pt mp ls mls pg mpg (gs : List Geometry),
      (reportsValid
          (Geometry.mk .GeometryCollection none pt mp ls mls pg mpg gs).GetBoundingBox = true →
        ∃ g ∈ gs, reportsValid g.GetBoundingBox = true) ∧
      ((∀ g ∈ gs, g.GetBoundingBox ≠ none) →
        (∃ g ∈ gs, reportsValid g.GetBoundingBox = true) →
        reportsValid
          (Geometry.mk .GeometryCollection none pt mp ls mls pg mpg gs).GetBoundingBox
            = true)) ∧
    (∀ fs : List Feature,
      (reportsValid (FeatureCollection.mk none fs).GetBoundingBox = true →
        ∃ f ∈ fs, reportsValid f.GetBoundingBox = true) ∧
      ((∀ f ∈ fs, f.GetBoundingBox ≠ none) →
        (∃ f ∈ fs, reportsValid f.GetBoundingBox = true) →
        reportsValid (FeatureCollection.mk none fs).GetBoundingBox = true)) := by
  constructor
  · intro pt mp ls mls pg mpg gs
    constructor
    · intro hv
      have hall : ∀ g ∈ gs, g.GetBoundingBox ≠ none := by
        cases hc : Geometry.collect gs sentinel with
        | none => simp [Geometry.GetBoundingBox, hc, reportsValid] at hv
        | some a => exact Geometry.collect_returns hc
      exact (Geometry.collection_valid_iff pt mp ls mls pg mpg gs hall).1 hv
    · intro hall he
      exact (Geometry.collection_valid_iff pt mp ls mls pg mpg gs hall).2 he
  · intro fs
    constructor
    · intro hv
      have hall : ∀ f ∈ fs, f.GetBoundingBox ≠ none := by
        cases hc : FeatureCollection.collect fs sentinel with
        | none => simp [FeatureCollection.GetBoundingBox, hc, reportsValid] at hv
        | some a => exact FeatureCollection.collectFeatures_returns hc
      exact (FeatureCollection.featureCollection_valid_iff fs hall).1 hv
    · intro hall he
      exact (FeatureCollection.featureCollection_valid_iff fs hall).2 he

/-- C16 (amended) at the collection of an empty MultiPoint and Point(3,4):
both calls return, the Point reports ok = true, and so does the collection. -/
theorem C16_collection_valid_iff_child_valid_witness :
    (∃ g ∈ [Geometry.multiPoint [], Geometry.point ⟨3, 4⟩],
      reportsValid g.GetBoundingBox = true) ∧
    reportsValid
      (Geometry.mk .GeometryCollection none ⟨0, 0⟩ [] [] [] [] []
        [Geometry.multiPoint [], Geometry.point ⟨3, 4⟩]).GetBoundingBox = true :=
  ⟨⟨Geometry.point ⟨3, 4⟩, by simp, by decide⟩,
    (C16_collection_valid_iff_child_valid.1 ⟨0, 0⟩ [] [] [] [] []
      [Geometry.multiPoint [], Geometry.point ⟨3, 4⟩]).2
      (by
        intro g hg
        simp only [List.mem_cons, List.mem_singleton, List.not_mem_nil, or_false] at hg
        rcases hg with e | e <;> subst e <;> decide)
      ⟨Geometry.point ⟨3, 4⟩, by simp, by decide⟩⟩

/-! ### The two aggregations -/

theorem FeatureCollection.collect_eq_geometry_collect (fs : List Feature)
    (h : ∀ f ∈ fs, f.BoundingBox = none) :
    ∀ acc, FeatureCollection.collect fs acc
      = Geometry.collect (fs.map Feature.Geometry) acc := by
  induction fs with
  | nil => intro acc; rfl
  | cons f fs ih =>
    intro acc
    have hf : f.GetBoundingBox = f.Geometry.GetBoundingBox := by
      unfold Feature.GetBoundingBox
      rw [h f (by simp)]
    have ih2 := ih (fun f2 hf2 => h f2 (List.mem_cons_of_mem _ hf2))
    simp only [FeatureCollection.collect, List.map_cons, Geometry.collect, hf]
    cases f.Geometry.GetBoundingBox with
    | none => rfl
    | some t => exact ih2 _

/-- C18: for every FeatureCollection without override whose features all
carry no override, `GetBoundingBox` returns exactly what `GetBoundingBox`
returns for a GeometryCollection without override whose children are the
features' geometries in the same order. -/
theorem C18_aggregations_agree (fs : List Feature) (h : ∀ f ∈ fs, f.BoundingBox = none)
    (pt : Coordinate) (mp ls : List Coordinate) (mls pg : List (List Coordinate))
    (mpg : List (List (List Coordinate))) :
    (FeatureCollection.mk none fs).GetBoundingBox
      = (Geometry.mk .GeometryCollection none pt mp ls mls pg mpg
          (fs.map Feature.Geometry)).GetBoundingBox := by
  simp only [FeatureCollection.GetBoundingBox, Geometry.GetBoundingBox,
    FeatureCollection.collect_eq_geometry_collect fs h sentinel]

/-- C18 at the features Point(1,1), an empty MultiPoint and Point(5,5): both
aggregations return min=(1,1), max=(5,5), ok=true. -/
theorem C18_aggregations_agree_witness :
    (FeatureCollection.mk none
        [⟨none, Geometry.point ⟨1, 1⟩⟩, ⟨none, Geometry.multiPoint []⟩,
         ⟨none, Geometry.point ⟨5, 5⟩⟩]).GetBoundingBox
      = (Geometry.mk .GeometryCollection none ⟨0, 0⟩ [] [] [] [] []
          (([⟨none, Geometry.point ⟨1, 1⟩⟩, ⟨none, Geometry.multiPoint []⟩,
            ⟨none, Geometry.point ⟨5, 5⟩⟩] : List Feature).map
              Feature.Geometry)).GetBoundingBox ∧
    (FeatureCollection.mk none
        [⟨none, Geometry.point ⟨1, 1⟩⟩, ⟨none, Geometry.multiPoint []⟩,
         ⟨none, Geometry.point ⟨5, 5⟩⟩]).GetBoundingBox
      = some ((1, 1), (5, 5), true) :=
  ⟨C18_aggregations_agree _
    (by
      intro f hf
      simp only [List.mem_cons, List.mem_singleton, List.not_mem_nil, or_false] at hf
      rcases hf with e | e | e <;> subst e <;> rfl)
    ⟨0, 0⟩ [] [] [] [] [], by decide⟩

/-! ### Termination and recursion depth -/

theorem Geometry.depth_le_depthList {gs : List Geometry} :
    ∀ g ∈ gs, g.depth ≤ Geometry.depthList gs := by
  induction gs with
  | nil => intro g hg; simp at hg
  | cons g0 gs ih =>
    intro g hg
    simp only [Geometry.depthList]
    rcases List.mem_cons.1 hg with e | e
    · rw [e]; exact Nat.le_max_left _ _
    · exact Nat.le_trans (ih g e) (Nat.le_max_right _ _)

theorem Geometry.collectDepth_eq {gs : List Geometry} {d : Nat}
    (ih : ∀ g ∈ gs, Geometry.GetBoundingBoxDepth d g = some g.GetBoundingBox) :
    ∀ acc, Geometry.collectDepth (Geometry.GetBoundingBoxDepth d) gs acc
      = some (Geometry.collect gs acc) := by
  induction gs with
  | nil => intro acc; rfl
  | cons g gs ihl =>
    intro acc
    have hg := ih g (by simp)
    have hl := ihl (fun g2 hg2 => ih g2 (List.mem_cons_of_mem _ hg2))
    simp only [Geometry.collectDepth, Geometry.collect, hg]
    cases g.GetBoundingBox with
    | none => rfl
    | some t => exact hl _

theorem Geometry.getBoundingBoxDepth_eq :
    ∀ g : Geometry, ∀ d : Nat, g.depth ≤ d →
      Geometry.GetBoundingBoxDepth d g = some g.GetBoundingBox := by
  apply Geometry.induct
  intro type bbox pt mp ls mls pg mpg gs ih d hd
  cases d with
  | zero =>
    cases bbox <;> cases type <;> simp [Geometry.depth] at hd
  | succ d =>
    cases bbox with
    | some b => simp [Geometry.GetBoundingBoxDepth, Geometry.GetBoundingBox]
    | none =>
      cases type with
      | GeometryCollection =>
        simp only [Geometry.depth] at hd
        have hch : ∀ g ∈ gs, Geometry.GetBoundingBoxDepth d g = some g.GetBoundingBox :=
          fun g hg => ih g hg d
            (Nat.le_trans (Geometry.depth_le_depthList g hg) (by omega))
        simp only [Geometry.GetBoundingBoxDepth, Geometry.GetBoundingBox,
          Geometry.collectDepth_eq hch sentinel]
        cases Geometry.collect gs sentinel with
        | none => rfl
        | some a => rfl
      | GeometryPoint => simp [Geometry.GetBoundingBoxDepth, Geometry.GetBoundingBox]
      | GeometryMultiPoint => simp [Geometry.GetBoundingBoxDepth, Geometry.GetBoundingBox]
      | GeometryLineString => simp [Geometry.GetBoundingBoxDepth, Geometry.GetBoundingBox]
      | GeometryMultiLineString =>
        simp [Geometry.GetBoundingBoxDepth, Geometry.GetBoundingBox]
      | GeometryPolygon => simp [Geometry.GetBoundingBoxDepth, Geometry.GetBoundingBox]
      | GeometryMultiPolygon => simp [Geometry.GetBoundingBoxDepth, Geometry.GetBoundingBox]
      | unknown => simp [Geometry.GetBoundingBoxDepth, Geometry.GetBoundingBox]

theorem Geometry.nest_depth (n : Nat) :
    (Geometry.nest n (Geometry.point ⟨3, 4⟩)).depth = n + 1 := by
  induction n with
  | zero => rfl
  | succ n ih =>
    simp only [Geometry.nest, Geometry.collection, Geometry.depth, Geometry.depthList, ih]
    omega

theorem Geometry.nest_bounds (n : Nat) :
    (Geometry.nest n (Geometry.point ⟨3, 4⟩)).GetBoundingBox
      = some ((3, 4), (3, 4), true) := by
  induction n with
  | zero => decide
  | succ n ih =>
    have h1 : merge sentinel ((3, 4), (3, 4), true) = ((3, 4), (3, 4)) := by decide
    have h2 : checkBoundingBox ((3 : F64), (4 : F64)) (3, 4) = true := by decide
    simp only [Geometry.nest, Geometry.collection, Geometry.GetBoundingBox,
      Geometry.collect, ih, h1, h2]

theorem Geometry.nest_needs_depth (n : Nat) :
    Geometry.GetBoundingBoxDepth n (Geometry.nest n (Geometry.point ⟨3, 4⟩)) = none := by
  induction n with
  | zero => rfl
  | succ n ih =>
    simp only [Geometry.nest, Geometry.collection, Geometry.GetBoundingBoxDepth,
      Geometry.collectDepth, ih]

/-- C19: `GetBoundingBox` terminates on every geometry tree, at any nesting
depth: run with a budget of `d` nested activations it returns the result of
`GetBoundingBox` as soon as `d` reaches the GeometryCollection nesting depth
of the tree (the recursion goes only into the children of a collection);
budget 1, which allows no recursive call, suffices for a geometry with an
override and for one that is not a GeometryCollection; and there is no depth
cap: Point(3,4) wrapped in `n` nested collections has depth n + 1, does not
finish within budget n, and returns min=(3,4), max=(3,4), ok=true for every n. -/
theorem C19_terminates_by_nesting_depth :
    (∀ (g : Geometry) (d : Nat), g.depth ≤ d →
      Geometry.GetBoundingBoxDepth d g = some g.GetBoundingBox) ∧
    (∀ type (b : List F64) pt mp ls mls pg mpg gs,
      Geometry.GetBoundingBoxDepth 1 (Geometry.mk type (some b) pt mp ls mls pg mpg gs)
        = some (Geometry.mk type (some b) pt mp ls mls pg mpg gs).GetBoundingBox) ∧
    (∀ type pt mp ls mls pg mpg gs, type ≠ GeometryType.GeometryCollection →
      Geometry.GetBoundingBoxDepth 1 (Geometry.mk type none pt mp ls mls pg mpg gs)
        = some (Geometry.mk type none pt mp ls mls pg mpg gs).GetBoundingBox) ∧
    (∀ n : Nat,
      (Geometry.nest n (Geometry.point ⟨3, 4⟩)).depth = n + 1 ∧
      Geometry.GetBoundingBoxDepth n (Geometry.nest n (Geometry.point ⟨3, 4⟩)) = none ∧
      (Geometry.nest n (Geometry.point ⟨3, 4⟩)).GetBoundingBox
        = some ((3, 4), (3, 4), true)) := by
  refine ⟨Geometry.getBoundingBoxDepth_eq, ?_, ?_, ?_⟩
  · intro type b pt mp ls mls pg mpg gs
    exact Geometry.getBoundingBoxDepth_eq _ 1 (by simp [Geometry.depth])
  · intro type pt mp ls mls pg mpg gs ht
    apply Geometry.getBoundingBoxDepth_eq _ 1
    cases type <;> simp [Geometry.depth] at ht ⊢
  · intro n
    exact ⟨Geometry.nest_depth n, Geometry.nest_needs_depth n, Geometry.nest_bounds n⟩

/-- C19 at Point(3,4) inside two nested collections, with its depth 3 as the
budget. -/
theorem C19_terminates_by_nesting_depth_witness :
    (Geometry.collection [Geometry.collection [Geometry.point ⟨3, 4⟩]]).depth ≤ 3 ∧
    Geometry.GetBoundingBoxDepth 3
        (Geometry.collection [Geometry.collection [Geometry.point ⟨3, 4⟩]])
      = some (Geometry.collection
          [Geometry.collection [Geometry.point ⟨3, 4⟩]]).GetBoundingBox ∧
    (Geometry.collection [Geometry.collection [Geometry.point ⟨3, 4⟩]]).GetBoundingBox
      = some ((3, 4), (3, 4), true) :=
  ⟨by decide, C19_terminates_by_nesting_depth.1 _ 3 (by decide), by decide⟩
